import Mathlib

/-!
# Verification of the MCP transport client and agent orchestration loop

Shallow embedding of the core of the repository:

* `mcp-client.ts` — JSON-RPC 2.0 over stdio transport: request-id
  allocation (`sendRequest`), response correlation and line buffering
  (`handleServerData`), per-request timeouts, connection setup
  (`connectServer` / `connectAll`).
* `chat.ts` — the ReAct orchestration loop (`Agent.chat`,
  `Agent.handleToolCalls`).
* `chat-compress-service.ts` — conversation-history compaction
  (`needsCompression` / `compress` / `generateSummary`).

Modelling conventions:

* JavaScript strings handled by the line correlator are modelled as
  `List Char` so that buffer concatenation and newline splitting can be
  reasoned about by structural induction.  Stdout chunks are modelled at
  byte level (`List Nat`); the per-chunk `Buffer.toString()` of the
  source is abstracted as a parameter `decode : List Nat → List Char`
  (Node decodes each chunk on its own, turning invalid or truncated
  UTF-8 sequences into U+FFFD).  Concrete witnesses instantiate `decode`
  with stubs agreeing with Node's UTF-8 decoding on the inputs they use.
* `JSON.parse` is a JavaScript builtin, not repository code; it is
  abstracted as a parameter `parse : List Char → Option JsonRpcMsg`
  returning `none` exactly when `JSON.parse` would throw.  Concrete
  witnesses instantiate it with a stub agreeing with `JSON.parse` on the
  inputs they use.
* JavaScript `Map` objects (insertion ordered, unique keys) are modelled
  as association lists with `mapSet` / `mapDelete` / `alookup` mirroring
  `Map.set` / `Map.delete` / `Map.get`.
* Promise resolution/rejection is modelled by explicit `MCPEvent` values:
  resolving a pending request's sink is the event `resolved id r`,
  rejecting it is `rejected id msg`.
* `setTimeout(fn, 60000)` in `sendRequest` is modelled by storing a
  `deadline := now + 60000` in the pending entry; the timer callback body
  is the function `fireTimeout`.
-/

namespace MyAgent

/-- Association-list lookup, modelling JavaScript `Map.get`. -/
def alookup {κ α : Type} [DecidableEq κ] : List (κ × α) → κ → Option α
  | [], _ => none
  | (k, v) :: rest, i => if i = k then some v else alookup rest i

/-- Association-list insertion/update, modelling JavaScript `Map.set`:
update in place if the key is present, else append. -/
def mapSet {κ α : Type} [DecidableEq κ] : List (κ × α) → κ → α → List (κ × α)
  | [], i, v => [(i, v)]
  | (k, w) :: rest, i, v => if k = i then (i, v) :: rest else (k, w) :: mapSet rest i v

/-- Association-list removal, modelling JavaScript `Map.delete`. -/
def mapDelete {κ α : Type} [DecidableEq κ] : List (κ × α) → κ → List (κ × α)
  | [], _ => []
  | (k, v) :: rest, i => if k = i then mapDelete rest i else (k, v) :: mapDelete rest i

theorem alookup_mapSet_self {κ α : Type} [DecidableEq κ] (m : List (κ × α)) (k : κ) (v : α) :
    alookup (mapSet m k v) k = some v := by
  induction m with
  | nil => simp [mapSet, alookup]
  | cons hd tl ih =>
    obtain ⟨k₀, v₀⟩ := hd
    by_cases h : k₀ = k
    · simp [mapSet, alookup, h]
    · simp [mapSet, alookup, h, Ne.symm h, ih]

theorem alookup_mapSet_ne {κ α : Type} [DecidableEq κ] (m : List (κ × α)) (k j : κ) (v : α)
    (h : j ≠ k) : alookup (mapSet m k v) j = alookup m j := by
  induction m with
  | nil => simp [mapSet, alookup, h]
  | cons hd tl ih =>
    obtain ⟨k₀, v₀⟩ := hd
    by_cases hk : k₀ = k
    · subst hk
      simp [mapSet, alookup, h]
    · by_cases hj : j = k₀ <;> simp [mapSet, alookup, hk, hj, ih]

theorem alookup_mapDelete_self {κ α : Type} [DecidableEq κ] (m : List (κ × α)) (k : κ) :
    alookup (mapDelete m k) k = none := by
  induction m with
  | nil => simp [mapDelete, alookup]
  | cons hd tl ih =>
    obtain ⟨k₀, v₀⟩ := hd
    by_cases h : k₀ = k
    · simp [mapDelete, h, ih]
    · simp [mapDelete, alookup, h, Ne.symm h, ih]

theorem alookup_mapDelete_ne {κ α : Type} [DecidableEq κ] (m : List (κ × α)) (k j : κ)
    (h : j ≠ k) : alookup (mapDelete m k) j = alookup m j := by
  induction m with
  | nil => simp [mapDelete]
  | cons hd tl ih =>
    obtain ⟨k₀, v₀⟩ := hd
    by_cases hk : k₀ = k
    · subst hk
      simp [mapDelete, alookup, h, ih]
    · by_cases hj : j = k₀ <;> simp [mapDelete, alookup, hk, hj, ih]

/-- MCP tool descriptor, from `interface MCPTool` in `mcp-client.ts`
(the JSON input schema is carried as an opaque payload; no verified claim
inspects it). -/
structure MCPTool where
  name : String
  description : String
  inputSchema : String
  deriving DecidableEq

/-- JSON-RPC error object, from `interface JsonRpcResponse.error`. -/
structure RpcError where
  code : Int
  message : String
  deriving DecidableEq

/-- A parsed JSON object as inspected by `handleServerData`: the fields
`id` / `error` / `result` of `interface JsonRpcResponse` (the `result`
payload is carried opaquely as a string). `id = none` models the `id`
field being `undefined`. -/
structure JsonRpcMsg where
  id : Option Int
  error : Option RpcError
  result : Option String
  deriving DecidableEq

/-- A JSON-RPC request as written to the subprocess stdin by
`sendRequest` (params carried opaquely). -/
structure JsonRpcRequest where
  id : Int
  method : String
  deriving DecidableEq

/-- One entry of `connection.pendingRequests`: the resolve/reject sinks
are identified by the request id (see `MCPEvent`), and the armed
`setTimeout` is modelled by its absolute deadline. -/
structure PendingEntry where
  deadline : Nat
  deriving DecidableEq

/-- Observable effects of the client: resolving / rejecting a pending
request's promise, and `EventEmitter.emit` calls. -/
inductive MCPEvent where
  | resolved (id : Int) (result : Option String)
  | rejected (id : Int) (message : String)
  | notify (msg : JsonRpcMsg)
  deriving DecidableEq

/-- Model of `interface ServerConnection` from `mcp-client.ts` (the `process`
handle and launch `config` are external resources omitted from the
state). -/
structure ServerConnection where
  ready : Bool
  tools : List MCPTool
  pendingRequests : List (Int × PendingEntry)
  buffer : List Char
  deriving DecidableEq

/-- Model of `class MCPClient` state: the client-wide monotone `requestId`
counter, the named-connection map, and the configured server names
(`Object.keys(this.config.mcpServers)`). -/
structure MCPClient where
  requestId : Int
  connections : List (String × ServerConnection)
  configServers : List String
  deriving DecidableEq

/-- Request timeout from `sendRequest` (`60000` ms). -/
def REQUEST_TIMEOUT_MS : Nat := 60000

/-- Model of `MCPClient.sendRequest`: throws when the connection map has no entry
for the server; otherwise allocates `id := ++this.requestId`, registers
the pending entry with a 60 s timer, and writes the request line to the
subprocess stdin.  Returns the updated client, the allocated id, and the
written request. -/
def sendRequest (cl : MCPClient) (serverName method : String) (now : Nat) :
    Except String (MCPClient × Int × JsonRpcRequest) :=
  match alookup cl.connections serverName with
  | none => .error ("MCP server \"" ++ serverName ++ "\" is not connected")
  | some conn =>
    let id := cl.requestId + 1
    let pend := mapSet conn.pendingRequests id ⟨now + REQUEST_TIMEOUT_MS⟩
    let conn' : ServerConnection := { conn with pendingRequests := pend }
    let cls := mapSet cl.connections serverName conn'
    .ok ({ cl with requestId := id, connections := cls }, id, ⟨id, method⟩)

/-- Model of `MCPClient.callTool`: `sendRequest(serverName, 'tools/call', ...)`. -/
def callTool (cl : MCPClient) (serverName toolName : String) (now : Nat) :
    Except String (MCPClient × Int × JsonRpcRequest) :=
  let _ := toolName
  sendRequest cl serverName "tools/call" now

/-- The body of the timeout callback armed in `sendRequest`:
`connection.pendingRequests.delete(id); reject(timeout error)`. -/
def fireTimeout (conn : ServerConnection) (id : Int) (method serverName : String) :
    ServerConnection × List MCPEvent :=
  ({ conn with pendingRequests := mapDelete conn.pendingRequests id },
   [.rejected id ("MCP request timeout: " ++ method ++ " (" ++ serverName ++ ")")])

/-- Client-level view of the timeout callback: the JS closure captured
the connection object that is stored in the map under `serverName`. -/
def clientFireTimeout (cl : MCPClient) (serverName : String) (id : Int) (method : String) :
    MCPClient × List MCPEvent :=
  match alookup cl.connections serverName with
  | none => (cl, [])
  | some conn =>
    let (conn', evs) := fireTimeout conn id method serverName
    ({ cl with connections := mapSet cl.connections serverName conn' }, evs)

/-- The ids of pending requests whose 60 s timer has expired at time `t`
(a timer armed in `sendRequest` fires once its stored deadline is
reached, unless `clearTimeout` ran first). -/
def dueTimeouts (conn : ServerConnection) (t : Nat) : List Int :=
  (conn.pendingRequests.filter (fun p => p.2.deadline ≤ t)).map Prod.fst

/-- The per-parsed-object dispatch inside `handleServerData`:
if the object has an `id`, look it up among pending requests — on a hit,
clear the timer, delete the entry, and reject (if the object carries an
`error`) or resolve it; on a miss, do nothing.  An object with no `id`
is emitted as a server notification. -/
def handleParsedMessage (conn : ServerConnection) (r : JsonRpcMsg) :
    ServerConnection × List MCPEvent :=
  match r.id with
  | some i =>
    match alookup conn.pendingRequests i with
    | some _ =>
      ({ conn with pendingRequests := mapDelete conn.pendingRequests i },
       match r.error with
       | some e => [.rejected i ("MCP error: " ++ e.message)]
       | none => [.resolved i r.result])
    | none => (conn, [])
  | none => (conn, [.notify r])

/-- JavaScript `string.split('\n')`: the list of segments between
newlines, always nonempty (`""` splits to `[""]`). -/
def splitLines : List Char → List (List Char)
  | [] => [[]]
  | c :: cs =>
    if c = '\n' then [] :: splitLines cs
    else
      match splitLines cs with
      | [] => [[c]]
      | l :: ls => (c :: l) :: ls

/-- The last element of a split (the element removed by `lines.pop()`;
a split is never empty, so the `[]` case is unreachable). -/
def lastSeg : List (List Char) → List Char
  | [] => []
  | [l] => l
  | _ :: l :: ls => lastSeg (l :: ls)

/-- All elements of a split except the last (what remains of `lines`
after `lines.pop()`). -/
def initSegs : List (List Char) → List (List Char)
  | [] => []
  | [_] => []
  | a :: l :: ls => a :: initSegs (l :: ls)

/-- Prepend a prefix onto the first element of a split (used to state
how `splitLines` distributes over append). -/
def consFirst (p : List Char) : List (List Char) → List (List Char)
  | [] => [p]
  | l :: ls => (p ++ l) :: ls

/-- JavaScript whitespace test for `string.trim()` (the characters
relevant to this protocol: space, tab, CR, LF). -/
def isJsWhitespace (c : Char) : Bool :=
  c = ' ' || c = '\t' || c = '\n' || c = '\r'

/-- JavaScript `string.trim()`. -/
def trimChars (s : List Char) : List Char :=
  ((s.dropWhile isJsWhitespace).reverse.dropWhile isJsWhitespace).reverse

/-- The per-line body of the `for (const line of lines)` loop in
`handleServerData`: trim, skip empty lines, `JSON.parse` (a throw is
swallowed: `catch { }`), then dispatch the parsed object. -/
def processLine (parse : List Char → Option JsonRpcMsg)
    (conn : ServerConnection) (line : List Char) : ServerConnection × List MCPEvent :=
  let t := trimChars line
  if t = [] then (conn, [])
  else
    match parse t with
    | none => (conn, [])
    | some r => handleParsedMessage conn r

/-- The `for (const line of lines)` loop of `handleServerData`: process
each complete line in order, concatenating the emitted events. -/
def processLines (parse : List Char → Option JsonRpcMsg) :
    ServerConnection → List (List Char) → ServerConnection × List MCPEvent
  | conn, [] => (conn, [])
  | conn, l :: ls =>
    ((processLines parse (processLine parse conn l).1 ls).1,
     (processLine parse conn l).2 ++ (processLines parse (processLine parse conn l).1 ls).2)

/-- Model of `MCPClient.handleServerData` at connection level: append the chunk to
the partial-line buffer, split on newlines, keep the final (possibly
incomplete) segment as the new buffer (`lines.pop()`), and process each
complete line in order. -/
def handleServerData (parse : List Char → Option JsonRpcMsg)
    (conn : ServerConnection) (data : List Char) : ServerConnection × List MCPEvent :=
  processLines parse
    { conn with buffer := lastSeg (splitLines (conn.buffer ++ data)) }
    (initSegs (splitLines (conn.buffer ++ data)))

/-- Feeding a sequence of stdout data chunks to `handleServerData`, one
`'data'` event per chunk, concatenating the emitted events. -/
def handleServerDataMany (parse : List Char → Option JsonRpcMsg) :
    ServerConnection → List (List Char) → ServerConnection × List MCPEvent
  | conn, [] => (conn, [])
  | conn, chunk :: rest =>
    ((handleServerDataMany parse (handleServerData parse conn chunk).1 rest).1,
     (handleServerData parse conn chunk).2 ++
       (handleServerDataMany parse (handleServerData parse conn chunk).1 rest).2)

/-- A run of `sendRequest` calls (server name, method) against one
client, collecting the ids of the successful sends; a call that throws
(server not connected) leaves the client state unchanged. -/
def sendRun (now : Nat) : MCPClient → List (String × String) → MCPClient × List Int
  | cl, [] => (cl, [])
  | cl, (s, m) :: rest =>
    match sendRequest cl s m now with
    | .error _ => sendRun now cl rest
    | .ok (cl', i, _) =>
      let (cl'', ids) := sendRun now cl' rest
      (cl'', i :: ids)

/-- Environment oracle for one `connectServer` attempt: how the spawned
subprocess behaves.  `spawnError` is the child process `'error'` event
(spawn failure); `handshakeError` is a failed `initialize` request
(JSON-RPC error response or timeout — either path rejects the pending
request and removes its entry); `listToolsError` likewise for
`tools/list`; `ok tools` is a fully successful handshake and listing. -/
inductive ServerBehavior where
  | spawnError (msg : String)
  | handshakeError (msg : String)
  | listToolsError (msg : String)
  | ok (tools : List MCPTool)
  deriving DecidableEq

/-- Does the behavior lead to a successful `connectServer`? -/
def ServerBehavior.isOk : ServerBehavior → Bool
  | .ok _ => true
  | _ => false

/-- The `ServerConnection` literal built in `connectServer` right after
`spawn`: `{ tools: [], ready: false, pendingRequests: new Map(), buffer: '' }`. -/
def freshConnection : ServerConnection :=
  { ready := false, tools := [], pendingRequests := [], buffer := [] }

/-- Model of `MCPClient.connectServer` driven by a behavior oracle.  Faithful to
the source control flow: unknown server name throws; an existing *ready*
connection short-circuits and returns its cached tools; otherwise a
fresh connection is stored in the map, then
`waitForProcess → initialize → listTools`:

* on spawn failure the `proc.on('error')` handler deletes the map entry
  and `waitForProcess` rejects — the error propagates;
* on a failed `initialize` or `tools/list` request the error propagates,
  but nothing removes the map entry: the connection stays, not ready
  (its pending entry was already removed when the request was rejected,
  and each failed request consumed one request id);
* on success `connection.tools` and `connection.ready` are set in place.
-/
def connectServer (cl : MCPClient) (name : String) (beh : ServerBehavior) :
    MCPClient × Except String (List MCPTool) :=
  if name ∈ cl.configServers then
    match alookup cl.connections name with
    | some conn =>
      if conn.ready then (cl, .ok conn.tools)
      else connectFresh cl name beh
    | none => connectFresh cl name beh
  else
    (cl, .error ("MCP server \"" ++ name ++ "\" not found in config"))
where
  connectFresh (cl : MCPClient) (name : String) (beh : ServerBehavior) :
      MCPClient × Except String (List MCPTool) :=
    let cl1 : MCPClient := { cl with connections := mapSet cl.connections name freshConnection }
    match beh with
    | .spawnError m =>
      ({ cl1 with connections := mapDelete cl1.connections name },
       .error ("Failed to start MCP server: " ++ m))
    | .handshakeError m =>
      ({ cl1 with requestId := cl1.requestId + 1 }, .error m)
    | .listToolsError m =>
      ({ cl1 with requestId := cl1.requestId + 2 }, .error m)
    | .ok tools =>
      let readyConn : ServerConnection := { freshConnection with ready := true, tools := tools }
      ({ cl1 with requestId := cl1.requestId + 2,
                  connections := mapSet cl1.connections name readyConn },
       .ok tools)

/-- The `for (const name of serverNames)` loop body of `connectAll`:
try `connectServer`; collect successes into the results map; a failure
is reported (emitted `'server-error'` plus `console.error`) and the loop
continues with the next server. -/
def connectList (behs : String → ServerBehavior) :
    MCPClient → List String →
    MCPClient × List (String × List MCPTool) × List (String × String)
  | cl, [] => (cl, [], [])
  | cl, n :: rest =>
    match (connectServer cl n (behs n)).2 with
    | .ok ts =>
      ((connectList behs (connectServer cl n (behs n)).1 rest).1,
       (n, ts) :: (connectList behs (connectServer cl n (behs n)).1 rest).2.1,
       (connectList behs (connectServer cl n (behs n)).1 rest).2.2)
    | .error e =>
      ((connectList behs (connectServer cl n (behs n)).1 rest).1,
       (connectList behs (connectServer cl n (behs n)).1 rest).2.1,
       (n, e) :: (connectList behs (connectServer cl n (behs n)).1 rest).2.2)

/-- Model of `MCPClient.connectAll`: iterate `Object.keys(this.config.mcpServers)`
(the configured server names, captured once). -/
def connectAll (cl : MCPClient) (behs : String → ServerBehavior) :
    MCPClient × List (String × List MCPTool) × List (String × String) :=
  connectList behs cl cl.configServers

/-- One requested tool invocation, from `interface ToolCall` in
`providers/types.ts` (`id`, `function.name`, `function.arguments`). -/
structure ToolCall where
  id : String
  name : String
  arguments : String
  deriving DecidableEq

/-- What `this.client.chat(...)` returns: optional text content plus the
requested tool invocations (`tool_calls` absent or empty is modelled as
`[]`; the source guards with `tool_calls && tool_calls.length > 0`). -/
structure ChatResponse where
  content : Option String
  tool_calls : List ToolCall
  deriving DecidableEq

/-- Conversation roles, from `Message.role` in `providers/types.ts`. -/
inductive Role where
  | system
  | user
  | assistant
  | tool
  deriving DecidableEq

/-- One conversation turn, from `interface Message`. -/
structure Message where
  role : Role
  content : String
  tool_calls : Option (List ToolCall) := none
  tool_call_id : Option String := none
  deriving DecidableEq

/-- The completion backend `this.client.chat`, abstracted as a function
of the submitted messages; `.error` models a thrown API error. -/
def Backend : Type := List Message → Except String ChatResponse

/-- Model of `JSON.stringify({ success: false, error: message })` — the
structured failure payload written into a tool-result turn
(`\x7b` / `\x7d` are the brace characters). -/
def failurePayload (message : String) : String :=
  "\x7b\"success\":false,\"error\":\"" ++ message ++ "\"\x7d"

/-- The body of the per-tool-call `try/catch` in
`Agent.handleToolCalls`: parse the JSON argument string (a throw is
caught), execute through the tool registry threading the external world
`σ` (a registry executor may both mutate the world and throw), and on
any failure produce the structured failure payload. -/
def execOne {α σ : Type} (parseArgs : String → Except String α)
    (exec : σ → String → α → σ × Except String String)
    (w : σ) (tc : ToolCall) : σ × String :=
  match parseArgs tc.arguments with
  | .error e => (w, failurePayload e)
  | .ok args =>
    match exec w tc.name args with
    | (w', .ok r) => (w', r)
    | (w', .error e) => (w', failurePayload e)

/-- Model of `Agent.handleToolCalls`: append the assistant turn carrying the
requested invocations, then execute each invocation sequentially in
receipt order, appending one tool-result turn per invocation that
references the invocation's id. -/
def handleToolCalls {α σ : Type} (parseArgs : String → Except String α)
    (exec : σ → String → α → σ × Except String String)
    (msgs : List Message) (toolCalls : List ToolCall) (content : Option String)
    (w : σ) : List Message × σ :=
  toolCalls.foldl
    (fun acc tc =>
      (acc.1 ++ [{ role := .tool, content := (execOne parseArgs exec acc.2 tc).2,
                   tool_call_id := some tc.id }],
       (execOne parseArgs exec acc.2 tc).1))
    (msgs ++ [{ role := .assistant, content := content.getD "", tool_calls := some toolCalls }], w)

/-- Final response on a backend error: `` `发生错误: ${error.message}` ``. -/
def backendErrorMsg (e : String) : String := "发生错误: " ++ e

/-- The fixed final response when the iteration bound is hit:
`'达到最大迭代次数，任务可能未完成。'`. -/
def maxIterationsMsg : String := "达到最大迭代次数，任务可能未完成。"

/-- Default `maxIterations` from the `Agent` constructor. -/
def defaultMaxIterations : Nat := 20

/-- The `while (isRunning && iterations < maxIterations)` loop of
`Agent.chat`, written with the explicit fuel `maxIterations - iterations`
(the loop variant).  Returns the final iteration count, message list,
loop-local `finalResponse`, and world.  A backend error is caught inside
the loop and ends it with an error message; a response without tool
calls appends the assistant turn and ends the loop with its text; a
response with tool calls runs `handleToolCalls` and loops. -/
def reactLoopAux {α σ : Type} (backend : Backend)
    (parseArgs : String → Except String α)
    (exec : σ → String → α → σ × Except String String) :
    Nat → Nat → List Message → σ → Nat × List Message × String × σ
  | 0, iterations, msgs, w => (iterations, msgs, "", w)
  | fuel + 1, iterations, msgs, w =>
    let iterations' := iterations + 1
    match backend msgs with
    | .error e => (iterations', msgs, backendErrorMsg e, w)
    | .ok resp =>
      if resp.tool_calls = [] then
        let text := resp.content.getD ""
        (iterations', msgs ++ [{ role := .assistant, content := text }], text, w)
      else
        let (msgs', w') := handleToolCalls parseArgs exec msgs resp.tool_calls resp.content w
        reactLoopAux backend parseArgs exec fuel iterations' msgs' w'

/-- The ReAct portion of `Agent.chat` after the user turn has been
appended and compression has run: reset `iterations := 0`, run the loop,
then — the post-loop check — overwrite the final response with the
max-iterations message whenever `iterations >= maxIterations`. -/
def chatCore {α σ : Type} (backend : Backend)
    (parseArgs : String → Except String α)
    (exec : σ → String → α → σ × Except String String)
    (maxIterations : Nat) (msgs : List Message) (w : σ) :
    Nat × List Message × String × σ :=
  let (iters, msgs', resp, w') := reactLoopAux backend parseArgs exec maxIterations 0 msgs w
  let final := if maxIterations ≤ iters then maxIterationsMsg else resp
  (iters, msgs', final, w')

/-- Model of `interface CompressConfig` from `chat-compress-service.ts`. -/
structure CompressConfig where
  maxTokens : Nat
  targetTokens : Nat
  keepRecentMessages : Nat
  deriving DecidableEq

/-- Model of `DEFAULT_CONFIG` from `chat-compress-service.ts`. -/
def DEFAULT_COMPRESS_CONFIG : CompressConfig :=
  { maxTokens := 24000, targetTokens := 8000, keepRecentMessages := 4 }

/-- Model of `ChatCompressService.estimateTokens`: sum of `content.length` over
all messages, plus `JSON.stringify(tool_calls).length` for messages
whose `tool_calls` field is present (even empty arrays are truthy in
JS), then `Math.ceil(totalChars / 3)`.  `stringifyLen` abstracts the
length of the `JSON.stringify` output, a JS builtin. -/
def estimateTokens (stringifyLen : List ToolCall → Nat) (msgs : List Message) : Nat :=
  let totalChars := msgs.foldl
    (fun acc m =>
      acc + m.content.length +
        (match m.tool_calls with
         | some tcs => stringifyLen tcs
         | none => 0))
    0
  (totalChars + 2) / 3

/-- Model of `ChatCompressService.needsCompression`. -/
def needsCompression (cfg : CompressConfig) (stringifyLen : List ToolCall → Nat)
    (msgs : List Message) : Bool :=
  cfg.maxTokens < estimateTokens stringifyLen msgs

/-- JavaScript `arr.slice(-k)`: the last `k` elements, except that
`slice(-0) = slice(0)` is the whole array. -/
def jsSliceLast {β : Type} (k : Nat) (l : List β) : List β :=
  if k = 0 then l else l.drop (l.length - k)

/-- JavaScript `arr.slice(0, -k)`: all but the last `k` elements, except
that `slice(0, -0) = slice(0, 0)` is empty. -/
def jsSliceDropLast {β : Type} (k : Nat) (l : List β) : List β :=
  if k = 0 then [] else l.take (l.length - k)

/-- The fixed summarization instruction of `generateSummary`. -/
def summaryInstruction : String :=
  "你是一个对话摘要助手。请将以下对话内容压缩成简洁的摘要，保留关键信息和上下文。摘要应该包含：主要讨论的话题、做出的决定、完成的任务、待解决的问题。"

/-- Model of `Message.role` rendered as in `` `${m.role}: ${m.content}` ``. -/
def roleName : Role → String
  | .system => "system"
  | .user => "user"
  | .assistant => "assistant"
  | .tool => "tool"

/-- The `role: content` rendering of the folded turns joined by blank
lines, as built in `generateSummary`. -/
def conversationText (msgs : List Message) : String :=
  String.intercalate "\n\n" (msgs.map (fun m => roleName m.role ++ ": " ++ m.content))

/-- JavaScript `response.content || '无法生成摘要'`: `null`, `undefined`
and the empty string are falsy. -/
def contentOrPlaceholder : Option String → String
  | none => "无法生成摘要"
  | some c => if c = "" then "无法生成摘要" else c

/-- Model of `ChatCompressService.generateSummary`: one backend call with the
fixed instruction and the folded turns; a thrown backend error
propagates (`.error`), an empty or absent `content` degrades to the
placeholder. -/
def generateSummary (backend : Backend) (msgs : List Message) : Except String String :=
  match backend
    [{ role := .system, content := summaryInstruction },
     { role := .user, content := "请总结以下对话：\n\n" ++ conversationText msgs }] with
  | .error e => .error e
  | .ok r => .ok (contentOrPlaceholder r.content)

/-- The synthetic system turn holding the summary. -/
def summaryTurn (summary : String) : Message :=
  { role := .system, content := "[对话历史摘要]\n" ++ summary }

/-- Model of `ChatCompressService.compress`: return the input unchanged when not
over the threshold; otherwise keep the *first* system message
(`messages.find`), take the last `keepRecentMessages` non-system turns
as recent and the rest as old; with no old turns return the input
unchanged; otherwise summarize the old turns (errors propagate) and
rebuild `first-system? + summary turn + recent turns`. -/
def compress (cfg : CompressConfig) (stringifyLen : List ToolCall → Nat)
    (backend : Backend) (msgs : List Message) : Except String (List Message) :=
  if ¬ needsCompression cfg stringifyLen msgs then .ok msgs
  else if jsSliceDropLast cfg.keepRecentMessages
      (msgs.filter (fun m => ¬ m.role = .system)) = [] then .ok msgs
  else
    match generateSummary backend
      (jsSliceDropLast cfg.keepRecentMessages
        (msgs.filter (fun m => ¬ m.role = .system))) with
    | .error e => .error e
    | .ok summary =>
      .ok ((match msgs.find? (fun m => m.role = .system) with
            | some m => [m]
            | none => []) ++ [summaryTurn summary] ++
        jsSliceLast cfg.keepRecentMessages (msgs.filter (fun m => ¬ m.role = .system)))

/-- Model of `Agent.chat` including the pre-loop steps that matter for the
verified claims: append the user turn, run compression when the
estimate is over the threshold (this `await` is *outside* the loop's
`try/catch`, so a compression error propagates out of `chat`), then run
the ReAct loop and the post-loop max-iterations overwrite. -/
def agentChat {α σ : Type} (backend : Backend)
    (parseArgs : String → Except String α)
    (exec : σ → String → α → σ × Except String String)
    (maxIterations : Nat) (cfg : CompressConfig)
    (stringifyLen : List ToolCall → Nat)
    (msgs : List Message) (userMessage : String) (w : σ) :
    Except String (Nat × List Message × String × σ) :=
  match (if needsCompression cfg stringifyLen
        (msgs ++ [{ role := .user, content := userMessage }]) then
      compress cfg stringifyLen backend
        (msgs ++ [{ role := .user, content := userMessage }])
    else
      .ok (msgs ++ [{ role := .user, content := userMessage }])) with
  | .error e => .error e
  | .ok msgs2 => .ok (chatCore backend parseArgs exec maxIterations msgs2 w)

/-- The id of the pending request an event resolves or rejects. -/
def MCPEvent.targetId : MCPEvent → Option Int
  | .resolved i _ => some i
  | .rejected i _ => some i
  | .notify _ => none

theorem sendRequest_ok_ids {cl : MCPClient} {s m : String} {now : Nat}
    {cl' : MCPClient} {i : Int} {req : JsonRpcRequest}
    (h : sendRequest cl s m now = .ok (cl', i, req)) :
    i = cl.requestId + 1 ∧ cl'.requestId = cl.requestId + 1 := by
  unfold sendRequest at h
  cases hl : alookup cl.connections s with
  | none => rw [hl] at h; exact absurd h (by simp)
  | some conn =>
    rw [hl] at h
    simp only [Except.ok.injEq, Prod.mk.injEq] at h
    obtain ⟨hcl, hi, -⟩ := h
    subst hi
    constructor
    · rfl
    · rw [← hcl]

theorem sendRun_ids_gt (now : Nat) :
    ∀ (reqs : List (String × String)) (cl : MCPClient),
      ∀ j ∈ (sendRun now cl reqs).2, cl.requestId < j := by
  intro reqs
  induction reqs with
  | nil => intro cl j hj; simp [sendRun] at hj
  | cons hd tl ih =>
    intro cl j hj
    obtain ⟨s, m⟩ := hd
    cases h : sendRequest cl s m now with
    | error e =>
      rw [sendRun, h] at hj
      exact ih cl j hj
    | ok v =>
      obtain ⟨cl', i, req⟩ := v
      rw [sendRun, h] at hj
      simp only [List.mem_cons] at hj
      obtain ⟨hi, hcl'⟩ := sendRequest_ok_ids h
      rcases hj with hj | hj
      · subst hj hi; omega
      · have := ih cl' j hj
        omega

theorem sendRun_ids_pairwise (now : Nat) :
    ∀ (reqs : List (String × String)) (cl : MCPClient),
      ((sendRun now cl reqs).2).Pairwise (· < ·) := by
  intro reqs
  induction reqs with
  | nil => intro cl; simp [sendRun]
  | cons hd tl ih =>
    intro cl
    obtain ⟨s, m⟩ := hd
    cases h : sendRequest cl s m now with
    | error e => rw [sendRun, h]; exact ih cl
    | ok v =>
      obtain ⟨cl', i, req⟩ := v
      rw [sendRun, h]
      obtain ⟨hi, hcl'⟩ := sendRequest_ok_ids h
      refine List.Pairwise.cons ?_ (ih cl')
      intro j hj
      have := sendRun_ids_gt now tl cl' j hj
      omega

theorem handleParsedMessage_pending_hit (conn : ServerConnection) (r : JsonRpcMsg) (i : Int)
    (hid : r.id = some i) (hpend : (alookup conn.pendingRequests i).isSome) :
    (handleParsedMessage conn r).2.length = 1 ∧
    (∀ e ∈ (handleParsedMessage conn r).2, e.targetId = some i) ∧
    alookup (handleParsedMessage conn r).1.pendingRequests i = none ∧
    ∀ j, j ≠ i →
      alookup (handleParsedMessage conn r).1.pendingRequests j =
        alookup conn.pendingRequests j := by
  cases hl : alookup conn.pendingRequests i with
  | none => rw [hl] at hpend; exact absurd hpend (by simp)
  | some p =>
    cases herr : r.error with
    | none =>
      refine ⟨?_, ?_, ?_, ?_⟩ <;>
        simp [handleParsedMessage, hid, hl, herr, MCPEvent.targetId,
          alookup_mapDelete_self, alookup_mapDelete_ne]
      intro j hj
      exact alookup_mapDelete_ne _ _ _ hj
    | some e =>
      refine ⟨?_, ?_, ?_, ?_⟩ <;>
        simp [handleParsedMessage, hid, hl, herr, MCPEvent.targetId,
          alookup_mapDelete_self, alookup_mapDelete_ne]
      intro j hj
      exact alookup_mapDelete_ne _ _ _ hj

/-- C1.  Request ids allocated by a client are strictly increasing and
unique across all connections of the whole run (never reset per
connection), and an incoming response whose id matches a pending request
resolves exactly that request: it produces exactly one resolution event,
that event targets the response's id, the entry is removed before
resolution, and every other pending entry is untouched. -/
theorem request_ids_unique_and_resolution_exact :
    (∀ (now : Nat) (reqs : List (String × String)) (cl : MCPClient),
      ((sendRun now cl reqs).2).Pairwise (· < ·)) ∧
    (∀ (conn : ServerConnection) (r : JsonRpcMsg) (i : Int),
      r.id = some i →
      (alookup conn.pendingRequests i).isSome →
      (handleParsedMessage conn r).2.length = 1 ∧
      (∀ e ∈ (handleParsedMessage conn r).2, e.targetId = some i) ∧
      alookup (handleParsedMessage conn r).1.pendingRequests i = none ∧
      ∀ j, j ≠ i →
        alookup (handleParsedMessage conn r).1.pendingRequests j =
          alookup conn.pendingRequests j) :=
  ⟨fun now reqs cl => sendRun_ids_pairwise now reqs cl,
   fun conn r i hid hpend => handleParsedMessage_pending_hit conn r i hid hpend⟩

/-- Concrete run for C1: two connections, three interleaved requests;
a response for pending id 7 resolves exactly that entry. -/
def clientC1 : MCPClient :=
  { requestId := 0,
    connections := [("alpha", freshConnection), ("beta", freshConnection)],
    configServers := ["alpha", "beta"] }

/-- Concrete connection with a pending request id 7 for the C1 witness. -/
def connC1 : ServerConnection :=
  { ready := true, tools := [], pendingRequests := [(7, ⟨60000⟩)], buffer := [] }

/-- Concrete response bearing id 7 for the C1 witness. -/
def respC1 : JsonRpcMsg := { id := some 7, error := none, result := some "ok" }

theorem request_ids_unique_and_resolution_exact_witness :
    ((sendRun 0 clientC1 [("alpha", "initialize"), ("beta", "initialize"),
        ("alpha", "tools/call")]).2).Pairwise (· < ·) ∧
    ((handleParsedMessage connC1 respC1).2.length = 1 ∧
     (∀ e ∈ (handleParsedMessage connC1 respC1).2, e.targetId = some 7) ∧
     alookup (handleParsedMessage connC1 respC1).1.pendingRequests 7 = none ∧
     ∀ j, j ≠ 7 →
       alookup (handleParsedMessage connC1 respC1).1.pendingRequests j =
         alookup connC1.pendingRequests j) :=
  ⟨request_ids_unique_and_resolution_exact.1 0 _ clientC1,
   request_ids_unique_and_resolution_exact.2 connC1 respC1 7 rfl (by decide)⟩

theorem mapSet_of_alookup_none {κ α : Type} [DecidableEq κ] {m : List (κ × α)} {k : κ}
    (h : alookup m k = none) (v : α) : mapSet m k v = m ++ [(k, v)] := by
  induction m with
  | nil => rfl
  | cons hd tl ih =>
    obtain ⟨k₀, v₀⟩ := hd
    by_cases hk : k = k₀
    · simp [alookup, hk] at h
    · simp [alookup, hk] at h
      simp [mapSet, Ne.symm hk, ih h]

theorem alookup_none_not_mem {κ α : Type} [DecidableEq κ] {m : List (κ × α)} {k : κ}
    (h : alookup m k = none) (v : α) : (k, v) ∉ m := by
  induction m with
  | nil => simp
  | cons hd tl ih =>
    obtain ⟨k₀, v₀⟩ := hd
    by_cases hk : k = k₀
    · simp [alookup, hk] at h
    · simp [alookup, hk] at h
      simp [ih h, hk]

theorem mem_dueTimeouts (conn : ServerConnection) (t : Nat) (i : Int) :
    i ∈ dueTimeouts conn t ↔
      ∃ p : PendingEntry, (i, p) ∈ conn.pendingRequests ∧ p.deadline ≤ t := by
  unfold dueTimeouts
  constructor
  · intro h
    obtain ⟨⟨j, p⟩, hmem, hj⟩ := List.mem_map.mp h
    obtain ⟨hmem', hle⟩ := List.mem_filter.mp hmem
    cases hj
    exact ⟨p, hmem', by simpa using hle⟩
  · intro ⟨p, hmem, hle⟩
    exact List.mem_map.mpr ⟨(i, p), List.mem_filter.mpr ⟨hmem, by simpa using hle⟩, rfl⟩

/-- C2.  A request whose response never arrives: its 60 s timer is not
due before `now + 60000` and is due at the deadline; firing it rejects
the call with the timeout error and removes the entry from the pending
set, while the connection stays in the map with its state otherwise
intact; a response bearing that id arriving afterwards resolves nothing
and changes nothing. -/
theorem timeout_call_scoped_and_late_response_noop
    (cl cl' : MCPClient) (server method : String) (now : Nat)
    (conn : ServerConnection) (i : Int) (req : JsonRpcRequest)
    (hconn : alookup cl.connections server = some conn)
    (hfresh : alookup conn.pendingRequests (cl.requestId + 1) = none)
    (hsend : sendRequest cl server method now = .ok (cl', i, req)) :
    ∃ connAfter, alookup cl'.connections server = some connAfter ∧
      (∀ t, t < now + REQUEST_TIMEOUT_MS → i ∉ dueTimeouts connAfter t) ∧
      i ∈ dueTimeouts connAfter (now + REQUEST_TIMEOUT_MS) ∧
      (clientFireTimeout cl' server i method).2 =
        [MCPEvent.rejected i ("MCP request timeout: " ++ method ++ " (" ++ server ++ ")")] ∧
      ∃ connFin,
        alookup (clientFireTimeout cl' server i method).1.connections server = some connFin ∧
        alookup connFin.pendingRequests i = none ∧
        connFin.ready = conn.ready ∧
        ∀ r : JsonRpcMsg, r.id = some i →
          handleParsedMessage connFin r = (connFin, []) := by
  unfold sendRequest at hsend
  rw [hconn] at hsend
  simp only [Except.ok.injEq, Prod.mk.injEq] at hsend
  obtain ⟨hcl', hi, hreq⟩ := hsend
  subst hi
  set connAfter : ServerConnection := { conn with pendingRequests := mapSet conn.pendingRequests (cl.requestId + 1) ⟨now + REQUEST_TIMEOUT_MS⟩ } with hcA
  have hpendA : connAfter.pendingRequests =
      conn.pendingRequests ++ [(cl.requestId + 1, ⟨now + REQUEST_TIMEOUT_MS⟩)] := by
    rw [hcA]
    exact mapSet_of_alookup_none hfresh _
  have hlookA : alookup cl'.connections server = some connAfter := by
    rw [← hcl']
    exact alookup_mapSet_self _ _ _
  refine ⟨connAfter, hlookA, ?_, ?_, ?_⟩
  · intro t ht hmem
    obtain ⟨p, hpmem, hple⟩ := (mem_dueTimeouts connAfter t _).mp hmem
    rw [hpendA] at hpmem
    rcases List.mem_append.mp hpmem with hin | hin
    · exact alookup_none_not_mem hfresh p hin
    · simp only [List.mem_singleton, Prod.mk.injEq] at hin
      obtain ⟨-, hp⟩ := hin
      subst hp
      simp only at hple
      omega
  · refine (mem_dueTimeouts connAfter _ _).mpr ⟨⟨now + REQUEST_TIMEOUT_MS⟩, ?_, le_refl _⟩
    rw [hpendA]
    exact List.mem_append.mpr (Or.inr (List.mem_singleton.mpr rfl))
  · unfold clientFireTimeout
    rw [hlookA]
    unfold fireTimeout
    set connFin : ServerConnection := { connAfter with pendingRequests := mapDelete connAfter.pendingRequests (cl.requestId + 1) } with hcF
    refine ⟨rfl, connFin, ?_, ?_, rfl, ?_⟩
    · exact alookup_mapSet_self _ _ _
    · rw [hcF]
      exact alookup_mapDelete_self _ _
    · intro r hid
      have hnone : alookup connFin.pendingRequests (cl.requestId + 1) = none := by
        rw [hcF]
        exact alookup_mapDelete_self _ _
      simp [handleParsedMessage, hid, hnone]

/-- Concrete client for the C2 witness: one fresh connection. -/
def clientC2 : MCPClient :=
  { requestId := 0, connections := [("alpha", freshConnection)], configServers := ["alpha"] }

/-- The client state after the C2 witness send (id 1, deadline 60100). -/
def clientC2' : MCPClient :=
  { requestId := 1,
    connections :=
      [("alpha", { ready := false, tools := [], pendingRequests := [(1, ⟨60100⟩)],
                   buffer := [] })],
    configServers := ["alpha"] }

theorem timeout_call_scoped_and_late_response_noop_witness :
    ∃ connAfter, alookup clientC2'.connections "alpha" = some connAfter ∧
      (∀ t, t < 100 + REQUEST_TIMEOUT_MS → (1 : Int) ∉ dueTimeouts connAfter t) ∧
      (1 : Int) ∈ dueTimeouts connAfter (100 + REQUEST_TIMEOUT_MS) ∧
      (clientFireTimeout clientC2' "alpha" 1 "tools/call").2 =
        [MCPEvent.rejected 1 ("MCP request timeout: " ++ "tools/call" ++ " (" ++ "alpha" ++ ")")] ∧
      ∃ connFin,
        alookup (clientFireTimeout clientC2' "alpha" 1 "tools/call").1.connections "alpha" =
          some connFin ∧
        alookup connFin.pendingRequests 1 = none ∧
        connFin.ready = freshConnection.ready ∧
        ∀ r : JsonRpcMsg, r.id = some 1 →
          handleParsedMessage connFin r = (connFin, []) :=
  timeout_call_scoped_and_late_response_noop clientC2 clientC2' "alpha" "tools/call" 100
    freshConnection 1 ⟨1, "tools/call"⟩ (by decide) (by decide) rfl

/-- The JSON text `{"jsonrpc":"2.0","id":5,"result":1}` as characters
(braces written as hex escapes). -/
def jsonLineC3 : List Char :=
  ("\x7b\"jsonrpc\":\"2.0\",\"id\":5,\"result\":1\x7d").toList

/-- The object `JSON.parse` yields for `jsonLineC3`. -/
def msgC3 : JsonRpcMsg := { id := some 5, error := none, result := some "1" }

/-- Stub for `JSON.parse`, agreeing with it on the line used by the C3
counterexample. -/
def parseC3 (s : List Char) : Option JsonRpcMsg :=
  if s = jsonLineC3 then some msgC3 else none

/-- Connection with no pending requests for the C3 counterexample. -/
def connC3 : ServerConnection :=
  { ready := true, tools := [], pendingRequests := [], buffer := [] }

/-- C3 counterexample.  A full stdout line that parses to an object
carrying numeric id 5, fed to a connection with no pending request 5:
the parse succeeds and the id matches nothing, yet the correlator emits
no event at all — in particular the object is NOT forwarded to
observers as a notification, contradicting the claim. -/
theorem unmatched_id_response_dropped_not_forwarded :
    parseC3 (trimChars jsonLineC3) = some msgC3 ∧
    msgC3.id = some 5 ∧
    alookup connC3.pendingRequests 5 = none ∧
    (handleServerData parseC3 connC3 (jsonLineC3 ++ ['\n'])).2 = [] := by
  refine ⟨?_, rfl, rfl, ?_⟩ <;> decide

/-- C3 amended.  Only a parsed object with no `id` field at all is
forwarded to observers as a server-initiated notification; a parsed
object carrying a numeric id that matches no pending request is silently
ignored — it resolves nothing and is not forwarded. -/
theorem notification_forwarding_amended :
    (∀ (conn : ServerConnection) (r : JsonRpcMsg),
      r.id = none → handleParsedMessage conn r = (conn, [.notify r])) ∧
    (∀ (conn : ServerConnection) (r : JsonRpcMsg) (i : Int),
      r.id = some i → alookup conn.pendingRequests i = none →
      handleParsedMessage conn r = (conn, [])) := by
  constructor
  · intro conn r hid
    simp [handleParsedMessage, hid]
  · intro conn r i hid hnone
    simp [handleParsedMessage, hid, hnone]

/-- A parsed object with no id field, for the C3 witness. -/
def notifC3 : JsonRpcMsg := { id := none, error := none, result := none }

theorem notification_forwarding_amended_witness :
    handleParsedMessage connC3 notifC3 = (connC3, [.notify notifC3]) ∧
    handleParsedMessage connC3 msgC3 = (connC3, []) :=
  ⟨notification_forwarding_amended.1 connC3 notifC3 rfl,
   notification_forwarding_amended.2 connC3 msgC3 5 rfl rfl⟩

theorem splitLines_ne_nil (s : List Char) : splitLines s ≠ [] := by
  induction s with
  | nil => simp [splitLines]
  | cons c cs ih =>
    by_cases h : c = '\n'
    · simp [splitLines, h]
    · simp only [splitLines, h, if_false]
      cases hs : splitLines cs with
      | nil => simp
      | cons l ls => simp

theorem splitLines_no_newline {s : List Char} : ∀ l ∈ splitLines s, '\n' ∉ l := by
  induction s with
  | nil =>
    intro l hl
    simp [splitLines] at hl
    simp [hl]
  | cons c cs ih =>
    intro l hl
    by_cases h : c = '\n'
    · rw [splitLines, if_pos h] at hl
      rcases List.mem_cons.mp hl with rfl | hl
      · simp
      · exact ih l hl
    · rw [splitLines, if_neg h] at hl
      cases hs : splitLines cs with
      | nil => exact absurd hs (splitLines_ne_nil cs)
      | cons m ms =>
        rw [hs] at hl
        rcases List.mem_cons.mp hl with rfl | hl
        · intro hmem
          rcases List.mem_cons.mp hmem with hc | hm
          · exact h hc.symm
          · exact ih m (hs ▸ List.mem_cons_self m ms) hm
        · exact ih l (hs ▸ List.mem_cons.mpr (Or.inr hl))

theorem lastSeg_mem : ∀ (L : List (List Char)), L ≠ [] → lastSeg L ∈ L := by
  intro L
  induction L with
  | nil => intro h; exact absurd rfl h
  | cons a ls ih =>
    intro _
    cases ls with
    | nil => simp [lastSeg]
    | cons l ls' =>
      rw [lastSeg]
      exact List.mem_cons.mpr (Or.inr (ih (by simp)))

theorem splitLines_of_no_newline {s : List Char} (h : '\n' ∉ s) : splitLines s = [s] := by
  induction s with
  | nil => rfl
  | cons c cs ih =>
    have hc : ¬ c = '\n' := fun hc => h (hc ▸ List.mem_cons_self c cs)
    have hcs : '\n' ∉ cs := fun hm => h (List.mem_cons.mpr (Or.inr hm))
    rw [splitLines, if_neg hc, ih hcs]

theorem lastSeg_append_ne (xs : List (List Char)) {ys : List (List Char)} (h : ys ≠ []) :
    lastSeg (xs ++ ys) = lastSeg ys := by
  induction xs with
  | nil => rfl
  | cons x xs ih =>
    cases hxy : xs ++ ys with
    | nil =>
      rcases List.append_eq_nil.mp hxy with ⟨-, h2⟩
      exact absurd h2 h
    | cons z zs =>
      rw [List.cons_append, hxy, lastSeg, ← hxy, ih]

theorem initSegs_append_ne (xs : List (List Char)) {ys : List (List Char)} (h : ys ≠ []) :
    initSegs (xs ++ ys) = xs ++ initSegs ys := by
  induction xs with
  | nil => rfl
  | cons x xs ih =>
    cases hxy : xs ++ ys with
    | nil =>
      rcases List.append_eq_nil.mp hxy with ⟨-, h2⟩
      exact absurd h2 h
    | cons z zs =>
      rw [List.cons_append, hxy, initSegs, ← hxy, ih, List.cons_append]

theorem consFirst_ne_nil (p : List Char) (ys : List (List Char)) : consFirst p ys ≠ [] := by
  cases ys <;> simp [consFirst]

/-- How JavaScript `split('\n')` distributes over string concatenation:
the last segment of the first part glues onto the first segment of the
second part. -/
theorem splitLines_append (a b : List Char) :
    splitLines (a ++ b) =
      initSegs (splitLines a) ++ consFirst (lastSeg (splitLines a)) (splitLines b) := by
  induction a with
  | nil =>
    cases hb : splitLines b with
    | nil => exact absurd hb (splitLines_ne_nil b)
    | cons y ys => simp [splitLines, consFirst, initSegs, lastSeg, hb]
  | cons c cs ih =>
    by_cases h : c = '\n'
    · subst h
      cases hcs : splitLines cs with
      | nil => exact absurd hcs (splitLines_ne_nil cs)
      | cons l ls =>
        rw [List.cons_append, splitLines, if_pos rfl, ih, hcs,
          splitLines, if_pos rfl, hcs, initSegs, lastSeg, List.cons_append]
    · cases hcs : splitLines cs with
      | nil => exact absurd hcs (splitLines_ne_nil cs)
      | cons l ls =>
        cases ls with
        | nil =>
          cases hb : splitLines b with
          | nil => exact absurd hb (splitLines_ne_nil b)
          | cons y ys =>
            have hl : splitLines (c :: cs) = [c :: l] := by
              rw [splitLines, if_neg h, hcs]
            have hcb : splitLines (cs ++ b) = (l ++ y) :: ys := by
              rw [ih, hcs, hb]
              rfl
            rw [List.cons_append, splitLines, if_neg h, hcb, hl]
            simp [initSegs, lastSeg, consFirst]
        | cons l2 ls2 =>
          have hl : splitLines (c :: cs) = (c :: l) :: l2 :: ls2 := by
            rw [splitLines, if_neg h, hcs]
          have hcb : splitLines (cs ++ b) =
              l :: (initSegs (l2 :: ls2) ++ consFirst (lastSeg (l2 :: ls2)) (splitLines b)) := by
            rw [ih, hcs, initSegs, lastSeg, List.cons_append]
          rw [List.cons_append, splitLines, if_neg h, hcb, hl, initSegs, lastSeg,
            List.cons_append]

theorem handleParsedMessage_buffer_set (conn : ServerConnection) (r : JsonRpcMsg)
    (buf : List Char) :
    handleParsedMessage { conn with buffer := buf } r =
      ({ (handleParsedMessage conn r).1 with buffer := buf },
       (handleParsedMessage conn r).2) := by
  cases hid : r.id with
  | none => simp [handleParsedMessage, hid]
  | some i =>
    cases hl : alookup conn.pendingRequests i with
    | none => simp [handleParsedMessage, hid, hl]
    | some p =>
      cases herr : r.error <;> simp [handleParsedMessage, hid, hl, herr]

theorem processLine_buffer_set (parse : List Char → Option JsonRpcMsg)
    (conn : ServerConnection) (l buf : List Char) :
    processLine parse { conn with buffer := buf } l =
      ({ (processLine parse conn l).1 with buffer := buf },
       (processLine parse conn l).2) := by
  unfold processLine
  by_cases ht : trimChars l = []
  · simp [ht]
  · simp only [ht, if_false]
    cases hp : parse (trimChars l) with
    | none => simp
    | some r => simpa using handleParsedMessage_buffer_set conn r buf

theorem processLines_buffer_set (parse : List Char → Option JsonRpcMsg) :
    ∀ (lines : List (List Char)) (conn : ServerConnection) (buf : List Char),
      processLines parse { conn with buffer := buf } lines =
        ({ (processLines parse conn lines).1 with buffer := buf },
         (processLines parse conn lines).2) := by
  intro lines
  induction lines with
  | nil => intro conn buf; simp [processLines]
  | cons l ls ih =>
    intro conn buf
    rw [processLines, processLine_buffer_set]
    rw [processLines]
    have h1 := ih (processLine parse conn l).1 buf
    simp only [h1]

theorem processLines_append (parse : List Char → Option JsonRpcMsg) :
    ∀ (xs ys : List (List Char)) (conn : ServerConnection),
      processLines parse conn (xs ++ ys) =
        ((processLines parse (processLines parse conn xs).1 ys).1,
         (processLines parse conn xs).2 ++
           (processLines parse (processLines parse conn xs).1 ys).2) := by
  intro xs
  induction xs with
  | nil => intro ys conn; simp [processLines]
  | cons x xs ih =>
    intro ys conn
    rw [List.cons_append, processLines, ih, processLines]
    simp [List.append_assoc]

theorem handleServerData_buffer (parse : List Char → Option JsonRpcMsg)
    (conn : ServerConnection) (data : List Char) :
    (handleServerData parse conn data).1.buffer =
      lastSeg (splitLines (conn.buffer ++ data)) := by
  unfold handleServerData
  rw [show ({ conn with buffer := lastSeg (splitLines (conn.buffer ++ data)) } :
        ServerConnection) =
      { conn with buffer := lastSeg (splitLines (conn.buffer ++ data)) } from rfl]
  rw [processLines_buffer_set]

/-- Splitting a stdout stream at any point and feeding the two pieces
separately produces exactly the same connection state and the same event
sequence as feeding it whole. -/
theorem handleServerData_append (parse : List Char → Option JsonRpcMsg)
    (conn : ServerConnection) (a b : List Char) :
    handleServerData parse conn (a ++ b) =
      ((handleServerData parse (handleServerData parse conn a).1 b).1,
       (handleServerData parse conn a).2 ++
         (handleServerData parse (handleServerData parse conn a).1 b).2) := by
  have hLA : '\n' ∉ lastSeg (splitLines (conn.buffer ++ a)) :=
    splitLines_no_newline _ (lastSeg_mem _ (splitLines_ne_nil _))
  have hsplit2 : splitLines (lastSeg (splitLines (conn.buffer ++ a)) ++ b) =
      consFirst (lastSeg (splitLines (conn.buffer ++ a))) (splitLines b) := by
    rw [splitLines_append, splitLines_of_no_newline hLA, initSegs, lastSeg,
      List.nil_append]
  have hcf : consFirst (lastSeg (splitLines (conn.buffer ++ a))) (splitLines b) ≠ [] :=
    consFirst_ne_nil _ _
  have h1 : handleServerData parse conn a =
      ({ (processLines parse conn (initSegs (splitLines (conn.buffer ++ a)))).1 with
          buffer := lastSeg (splitLines (conn.buffer ++ a)) },
       (processLines parse conn (initSegs (splitLines (conn.buffer ++ a)))).2) := by
    unfold handleServerData
    rw [processLines_buffer_set]
  have h2 : handleServerData parse conn (a ++ b) =
      ({ (processLines parse
            (processLines parse conn (initSegs (splitLines (conn.buffer ++ a)))).1
            (initSegs (consFirst (lastSeg (splitLines (conn.buffer ++ a)))
              (splitLines b)))).1 with
          buffer := lastSeg (consFirst (lastSeg (splitLines (conn.buffer ++ a)))
            (splitLines b)) },
       (processLines parse conn (initSegs (splitLines (conn.buffer ++ a)))).2 ++
         (processLines parse
            (processLines parse conn (initSegs (splitLines (conn.buffer ++ a)))).1
            (initSegs (consFirst (lastSeg (splitLines (conn.buffer ++ a)))
              (splitLines b)))).2) := by
    unfold handleServerData
    rw [← List.append_assoc, splitLines_append, initSegs_append_ne _ hcf,
      lastSeg_append_ne _ hcf, processLines_buffer_set, processLines_append]
  have h3 : handleServerData parse
      ({ (processLines parse conn (initSegs (splitLines (conn.buffer ++ a)))).1 with
          buffer := lastSeg (splitLines (conn.buffer ++ a)) } : ServerConnection) b =
      ({ (processLines parse
            (processLines parse conn (initSegs (splitLines (conn.buffer ++ a)))).1
            (initSegs (consFirst (lastSeg (splitLines (conn.buffer ++ a)))
              (splitLines b)))).1 with
          buffer := lastSeg (consFirst (lastSeg (splitLines (conn.buffer ++ a)))
            (splitLines b)) },
       (processLines parse
          (processLines parse conn (initSegs (splitLines (conn.buffer ++ a)))).1
          (initSegs (consFirst (lastSeg (splitLines (conn.buffer ++ a)))
            (splitLines b)))).2) := by
    unfold handleServerData
    rw [show ({ (processLines parse conn
          (initSegs (splitLines (conn.buffer ++ a)))).1 with
          buffer := lastSeg (splitLines (conn.buffer ++ a)) } :
        ServerConnection).buffer = lastSeg (splitLines (conn.buffer ++ a)) from rfl]
    rw [hsplit2]
    exact processLines_buffer_set parse
      (initSegs (consFirst (lastSeg (splitLines (conn.buffer ++ a))) (splitLines b)))
      (processLines parse conn (initSegs (splitLines (conn.buffer ++ a)))).1
      (lastSeg (consFirst (lastSeg (splitLines (conn.buffer ++ a))) (splitLines b)))
  rw [h2, h1, h3]

theorem handleServerDataMany_eq_flatten (parse : List Char → Option JsonRpcMsg) :
    ∀ (chunks : List (List Char)) (conn : ServerConnection), '\n' ∉ conn.buffer →
      handleServerDataMany parse conn chunks =
        handleServerData parse conn chunks.flatten := by
  intro chunks
  induction chunks with
  | nil =>
    intro conn hbuf
    rw [handleServerDataMany]
    unfold handleServerData
    rw [show ([] : List (List Char)).flatten = [] from rfl, List.append_nil,
      splitLines_of_no_newline hbuf, lastSeg, initSegs, processLines]
  | cons ch rest ih =>
    intro conn hbuf
    have hb2 : '\n' ∉ (handleServerData parse conn ch).1.buffer := by
      rw [handleServerData_buffer]
      exact splitLines_no_newline _ (lastSeg_mem _ (splitLines_ne_nil _))
    rw [handleServerDataMany, ih _ hb2,
      show (ch :: rest).flatten = ch ++ rest.flatten from rfl,
      handleServerData_append]

theorem processLine_parse_none (parse : List Char → Option JsonRpcMsg)
    (conn : ServerConnection) (l : List Char) (hp : parse (trimChars l) = none) :
    processLine parse conn l = (conn, []) := by
  unfold processLine
  by_cases ht : trimChars l = [] <;> simp [ht, hp]

theorem consFirst_nil_of_ne {ys : List (List Char)} (h : ys ≠ []) : consFirst [] ys = ys := by
  cases ys with
  | nil => exact absurd rfl h
  | cons y ys' => simp [consFirst]

theorem malformed_line_skipped (parse : List Char → Option JsonRpcMsg)
    (conn : ServerConnection) (bad rest : List Char)
    (hnl : '\n' ∉ bad) (hp : parse (trimChars bad) = none) (hbuf : conn.buffer = []) :
    handleServerData parse conn (bad ++ '\n' :: rest) =
      handleServerData parse conn rest := by
  cases hrest : splitLines rest with
  | nil => exact absurd hrest (splitLines_ne_nil rest)
  | cons r rs =>
    have h1 : splitLines (bad ++ ['\n']) = [bad, []] := by
      rw [splitLines_append, splitLines_of_no_newline hnl, initSegs, lastSeg,
        show splitLines ['\n'] = [[], []] from rfl]
      simp [consFirst]
    have hsp : splitLines (bad ++ '\n' :: rest) = bad :: (r :: rs) := by
      rw [show bad ++ '\n' :: rest = (bad ++ ['\n']) ++ rest by simp,
        splitLines_append, h1,
        show lastSeg [bad, []] = [] from rfl,
        show initSegs [bad, []] = [bad] from rfl,
        consFirst_nil_of_ne (splitLines_ne_nil rest), hrest]
      rfl
    unfold handleServerData
    rw [hbuf]
    simp only [List.nil_append]
    rw [hsp, hrest,
      show lastSeg (bad :: r :: rs) = lastSeg (r :: rs) from rfl,
      show initSegs (bad :: r :: rs) = bad :: initSegs (r :: rs) from rfl,
      processLines, processLine_parse_none parse _ bad hp]
    simp

/-- Model of one stdout `'data'` event at byte level:
`connection.buffer += data.toString()` — the chunk's bytes are decoded
to text by `decode` (abstracting Node's per-chunk `Buffer.toString()`,
which replaces invalid or truncated UTF-8 sequences by U+FFFD) and fed
to the line correlator. -/
def handleServerBytes (decode : List Nat → List Char)
    (parse : List Char → Option JsonRpcMsg)
    (conn : ServerConnection) (bytes : List Nat) : ServerConnection × List MCPEvent :=
  handleServerData parse conn (decode bytes)

/-- Feeding a sequence of stdout byte chunks, one `'data'` event per
chunk: each chunk is decoded ON ITS OWN by `decode`, as the source's
per-chunk `data.toString()` does, then appended to the text buffer. -/
def handleServerBytesMany (decode : List Nat → List Char)
    (parse : List Char → Option JsonRpcMsg) :
    ServerConnection → List (List Nat) → ServerConnection × List MCPEvent
  | conn, [] => (conn, [])
  | conn, chunk :: rest =>
    ((handleServerBytesMany decode parse
        (handleServerData parse conn (decode chunk)).1 rest).1,
     (handleServerData parse conn (decode chunk)).2 ++
       (handleServerBytesMany decode parse
         (handleServerData parse conn (decode chunk)).1 rest).2)

theorem handleServerBytesMany_eq_map (decode : List Nat → List Char)
    (parse : List Char → Option JsonRpcMsg) :
    ∀ (chunks : List (List Nat)) (conn : ServerConnection),
      handleServerBytesMany decode parse conn chunks =
        handleServerDataMany parse conn (chunks.map decode) := by
  intro chunks
  induction chunks with
  | nil => intro conn; rfl
  | cons c rest ih =>
    intro conn
    rw [handleServerBytesMany, List.map_cons, handleServerDataMany, ih]

/-- Characters of the text `{"id":5,"result":"` (braces as hex
escapes). -/
def prefixC4 : List Char := ("\x7b\"id\":5,\"result\":\"").toList

/-- The complete JSON line `{"id":5,"result":"中"}`. -/
def lineGoodC4 : List Char := prefixC4 ++ '中' :: ("\"\x7d").toList

/-- What the same line becomes when its byte stream is cut inside the
three UTF-8 bytes of `中` and each fragment is decoded on its own: the
truncated lead sequence and the stray continuation byte each decode to
U+FFFD. -/
def lineBadC4 : List Char := prefixC4 ++ '\uFFFD' :: '\uFFFD' :: ("\"\x7d").toList

/-- Object `JSON.parse` yields for `lineGoodC4`. -/
def msgGoodC4 : JsonRpcMsg := { id := some 5, error := none, result := some "中" }

/-- Object `JSON.parse` yields for `lineBadC4` (still valid JSON — the
replacement characters land inside the string payload). -/
def msgBadC4 : JsonRpcMsg := { id := some 5, error := none, result := some "\uFFFD\uFFFD" }

/-- ASCII bytes of `prefixC4`, then the first two bytes `E4 B8` of the
three-byte UTF-8 encoding of `中`: a chunk cut mid-character. -/
def chunkAC4 : List Nat :=
  [123, 34, 105, 100, 34, 58, 53, 44, 34, 114, 101, 115, 117, 108, 116, 34, 58, 34,
   228, 184]

/-- The remaining bytes: the final continuation byte `AD` of `中`, then
`"` `}` and the newline. -/
def chunkBC4 : List Nat := [173, 34, 125, 10]

/-- Stub for Node's `Buffer.toString('utf8')`, agreeing with it on the
three byte sequences used by the C4 counterexample: the whole stream
decodes cleanly, while each mid-character fragment decodes with a
U+FFFD replacement character. -/
def decodeC4 (bs : List Nat) : List Char :=
  if bs = chunkAC4 ++ chunkBC4 then lineGoodC4 ++ ['\n']
  else if bs = chunkAC4 then prefixC4 ++ ['\uFFFD']
  else if bs = chunkBC4 then '\uFFFD' :: ("\"\x7d\n").toList
  else []

/-- Stub for `JSON.parse`, agreeing with it on the two lines used by
the C4 counterexample (both are valid JSON). -/
def parseC4 (s : List Char) : Option JsonRpcMsg :=
  if s = lineGoodC4 then some msgGoodC4
  else if s = lineBadC4 then some msgBadC4
  else none

/-- Connection with request 5 pending, for the C4 counterexample. -/
def connC4 : ServerConnection :=
  { ready := true, tools := [], pendingRequests := [(5, ⟨60000⟩)], buffer := [] }

/-- C4 counterexample.  One byte stream, two ways of feeding it: whole,
and split into two chunks with the cut inside the multi-byte UTF-8
character `中`.  Because the source decodes each chunk on its own
(`connection.buffer += data.toString()`), the fragments decode with
U+FFFD replacement characters; the whole feed resolves request 5 with
result `"中"` while the split feed resolves it with result `"\uFFFD\uFFFD"` —
the parsed message sequences differ, contradicting the claim for
byte-level splits. -/
theorem utf8_split_changes_parsed_messages :
    (handleServerBytes decodeC4 parseC4 connC4 (chunkAC4 ++ chunkBC4)).2 =
      [.resolved 5 (some "中")] ∧
    (handleServerBytesMany decodeC4 parseC4 connC4 [chunkAC4, chunkBC4]).2 =
      [.resolved 5 (some "\uFFFD\uFFFD")] ∧
    (some "中" : Option String) ≠ some "\uFFFD\uFFFD" :=
  ⟨by decide, by decide, by decide⟩

/-- C4 amended.  (1) For every chunking of the byte stream that is
compatible with the per-chunk decoding — the chunks decode to texts
whose concatenation is the decoding of the whole stream, as holds for
every split at character boundaries — feeding the chunks one `'data'`
event at a time yields exactly the same connection state and the same
sequence of parsed messages as feeding the whole stream (hence the same
as feeding whole lines).  A split inside a multi-byte UTF-8 character
breaks this compatibility and the guarantee with it.  (2) A malformed
(unparseable) line is silently discarded: it emits nothing, changes
nothing, and the rest of the stream parses exactly as if the line had
not been there. -/
theorem chunk_invariance_amended :
    (∀ (decode : List Nat → List Char) (parse : List Char → Option JsonRpcMsg)
       (conn : ServerConnection) (chunks : List (List Nat)),
      '\n' ∉ conn.buffer →
      decode chunks.flatten = (chunks.map decode).flatten →
      handleServerBytesMany decode parse conn chunks =
        handleServerBytes decode parse conn chunks.flatten) ∧
    (∀ (parse : List Char → Option JsonRpcMsg) (conn : ServerConnection)
       (bad rest : List Char), '\n' ∉ bad →
       parse (trimChars bad) = none → conn.buffer = [] →
       handleServerData parse conn (bad ++ '\n' :: rest) =
         handleServerData parse conn rest) := by
  constructor
  · intro decode parse conn chunks hbuf hcompat
    rw [handleServerBytesMany_eq_map decode parse chunks conn,
      handleServerDataMany_eq_flatten parse (chunks.map decode) conn hbuf]
    unfold handleServerBytes
    rw [hcompat]
  · intro parse conn bad rest hnl hp hbuf
    exact malformed_line_skipped parse conn bad rest hnl hp hbuf

/-- Decoder stub agreeing with `Buffer.toString('utf8')` on pure-ASCII
chunks, for the C4 witness. -/
def asciiDecode : List Nat → List Char := fun bs => bs.map Char.ofNat

/-- ASCII bytes of the C3 response line plus its newline. -/
def bytesC4w : List Nat := (jsonLineC3 ++ ['\n']).map Char.toNat

theorem chunk_invariance_amended_witness :
    handleServerBytesMany asciiDecode parseC3 connC3
        [List.take 10 bytesC4w, List.drop 10 bytesC4w] =
      handleServerBytes asciiDecode parseC3 connC3
        ([List.take 10 bytesC4w, List.drop 10 bytesC4w]).flatten ∧
    handleServerData parseC3 connC3 (("not json").toList ++ '\n' :: jsonLineC3) =
      handleServerData parseC3 connC3 jsonLineC3 :=
  ⟨chunk_invariance_amended.1 asciiDecode parseC3 connC3
     [List.take 10 bytesC4w, List.drop 10 bytesC4w] (by decide) (by decide),
   chunk_invariance_amended.2 parseC3 connC3
     (("not json").toList) jsonLineC3 (by decide) (by decide) rfl⟩

/-- The tools delivered by a behavior (empty for failures). -/
def ServerBehavior.toolsOf : ServerBehavior → List MCPTool
  | .ok ts => ts
  | _ => []

/-- What `connectServer` leaves in the connection map for a server whose
attempt had the given behavior: success stores a ready connection with
the listed tools; a spawn error removes the entry; a handshake or
listing error leaves the fresh entry in place, not ready. -/
def connEntrySpec (b : ServerBehavior) (e : Option ServerConnection) : Prop :=
  match b with
  | .ok ts => e = some { freshConnection with ready := true, tools := ts }
  | .spawnError _ => e = none
  | .handshakeError _ => e = some freshConnection
  | .listToolsError _ => e = some freshConnection

theorem connectServer_spec (cl : MCPClient) (n : String) (beh : ServerBehavior)
    (hmem : n ∈ cl.configServers) (hnone : alookup cl.connections n = none) :
    (connectServer cl n beh).1.configServers = cl.configServers ∧
    (∀ k, k ≠ n →
      alookup (connectServer cl n beh).1.connections k = alookup cl.connections k) ∧
    connEntrySpec beh (alookup (connectServer cl n beh).1.connections n) ∧
    (connectServer cl n beh).2 =
      (match beh with
       | .ok ts => .ok ts
       | .spawnError m => .error ("Failed to start MCP server: " ++ m)
       | .handshakeError m => .error m
       | .listToolsError m => .error m) := by
  cases beh with
  | spawnError m =>
    refine ⟨?_, ?_, ?_, ?_⟩ <;>
      simp [connectServer, connectServer.connectFresh, hmem, hnone, connEntrySpec,
        alookup_mapDelete_self]
    intro k hk
    rw [alookup_mapDelete_ne _ _ _ hk, alookup_mapSet_ne _ _ _ _ hk]
  | handshakeError m =>
    refine ⟨?_, ?_, ?_, ?_⟩ <;>
      simp [connectServer, connectServer.connectFresh, hmem, hnone, connEntrySpec,
        alookup_mapSet_self]
    intro k hk
    rw [alookup_mapSet_ne _ _ _ _ hk]
  | listToolsError m =>
    refine ⟨?_, ?_, ?_, ?_⟩ <;>
      simp [connectServer, connectServer.connectFresh, hmem, hnone, connEntrySpec,
        alookup_mapSet_self]
    intro k hk
    rw [alookup_mapSet_ne _ _ _ _ hk]
  | ok ts =>
    refine ⟨?_, ?_, ?_, ?_⟩ <;>
      simp [connectServer, connectServer.connectFresh, hmem, hnone, connEntrySpec,
        alookup_mapSet_self]
    intro k hk
    rw [alookup_mapSet_ne _ _ _ _ hk, alookup_mapSet_ne _ _ _ _ hk]

theorem connectList_spec (behs : String → ServerBehavior) :
    ∀ (names : List String) (cl : MCPClient),
      (∀ n ∈ names, n ∈ cl.configServers) →
      (∀ n ∈ names, alookup cl.connections n = none) →
      names.Nodup →
      (connectList behs cl names).1.configServers = cl.configServers ∧
      (connectList behs cl names).2.1 =
        (names.filter (fun n => (behs n).isOk)).map
          (fun n => (n, (behs n).toolsOf)) ∧
      (connectList behs cl names).2.2.map Prod.fst =
        names.filter (fun n => ¬ (behs n).isOk) ∧
      (∀ k, k ∉ names →
        alookup (connectList behs cl names).1.connections k =
          alookup cl.connections k) ∧
      (∀ n ∈ names,
        connEntrySpec (behs n) (alookup (connectList behs cl names).1.connections n)) := by
  intro names
  induction names with
  | nil =>
    intro cl _ _ _
    refine ⟨rfl, rfl, rfl, fun k _ => rfl, fun n hn => absurd hn (by simp)⟩
  | cons n rest ih =>
    intro cl hmem hnone hnd
    have hn_mem : n ∈ cl.configServers := hmem n (List.mem_cons_self n rest)
    have hn_none : alookup cl.connections n = none := hnone n (List.mem_cons_self n rest)
    have hn_nin : n ∉ rest := (List.nodup_cons.mp hnd).1
    have hrest_nd : rest.Nodup := (List.nodup_cons.mp hnd).2
    obtain ⟨hcfg, hframe, hentry, hres⟩ := connectServer_spec cl n (behs n) hn_mem hn_none
    have hrest_mem : ∀ m ∈ rest, m ∈ (connectServer cl n (behs n)).1.configServers := by
      intro m hm
      rw [hcfg]
      exact hmem m (List.mem_cons.mpr (Or.inr hm))
    have hrest_none : ∀ m ∈ rest,
        alookup (connectServer cl n (behs n)).1.connections m = none := by
      intro m hm
      have hmn : m ≠ n := fun h => hn_nin (h ▸ hm)
      rw [hframe m hmn]
      exact hnone m (List.mem_cons.mpr (Or.inr hm))
    obtain ⟨ihcfg, ihres, ihfail, ihframe, ihentry⟩ :=
      ih (connectServer cl n (behs n)).1 hrest_mem hrest_none hrest_nd
    have hunf : connectList behs cl (n :: rest) =
        (match (connectServer cl n (behs n)).2 with
         | .ok ts =>
           ((connectList behs (connectServer cl n (behs n)).1 rest).1,
            (n, ts) :: (connectList behs (connectServer cl n (behs n)).1 rest).2.1,
            (connectList behs (connectServer cl n (behs n)).1 rest).2.2)
         | .error e =>
           ((connectList behs (connectServer cl n (behs n)).1 rest).1,
            (connectList behs (connectServer cl n (behs n)).1 rest).2.1,
            (n, e) :: (connectList behs (connectServer cl n (behs n)).1 rest).2.2)) := by
      rw [connectList]
    have hframe_all : ∀ k, k ∉ (n :: rest) →
        alookup (connectList behs (connectServer cl n (behs n)).1 rest).1.connections k =
          alookup cl.connections k := by
      intro k hk
      have hkn : k ≠ n := fun h => hk (h ▸ List.mem_cons_self n rest)
      have hkr : k ∉ rest := fun h => hk (List.mem_cons.mpr (Or.inr h))
      rw [ihframe k hkr, hframe k hkn]
    have hentry_all : ∀ m ∈ (n :: rest),
        connEntrySpec (behs m)
          (alookup (connectList behs (connectServer cl n (behs n)).1 rest).1.connections m) := by
      intro m hm
      rcases List.mem_cons.mp hm with rfl | hm
      · rw [ihframe m hn_nin]
        exact hentry
      · exact ihentry m hm
    have hcfg_all :
        (connectList behs (connectServer cl n (behs n)).1 rest).1.configServers =
          cl.configServers := by rw [ihcfg, hcfg]
    cases hbeh : behs n with
    | ok ts =>
      have hres2 : (connectServer cl n (behs n)).2 = Except.ok ts := by
        rw [hres, hbeh]
      simp only [hunf, hres2]
      refine ⟨hcfg_all, ?_, ?_, hframe_all, hentry_all⟩
      · rw [ihres]
        simp [List.filter_cons, hbeh, ServerBehavior.isOk, ServerBehavior.toolsOf]
      · have hcond : (ServerBehavior.ok ts).isOk = false ∨ (ServerBehavior.ok ts).isOk = true :=
          Or.inr rfl
        rw [ihfail, List.filter_cons]
        simp [hbeh, show (ServerBehavior.ok ts).isOk = true from rfl]
    | spawnError msg =>
      have hres2 : (connectServer cl n (behs n)).2 =
          Except.error ("Failed to start MCP server: " ++ msg) := by
        rw [hres, hbeh]
      simp only [hunf, hres2]
      refine ⟨hcfg_all, ?_, ?_, hframe_all, hentry_all⟩
      · rw [ihres]
        simp [List.filter_cons, hbeh, ServerBehavior.isOk]
      · rw [hbeh] at ihfail
        rw [List.filter_cons]
        simp [hbeh, show (ServerBehavior.spawnError msg).isOk = false from rfl, ihfail]
    | handshakeError msg =>
      have hres2 : (connectServer cl n (behs n)).2 = Except.error msg := by
        rw [hres, hbeh]
      simp only [hunf, hres2]
      refine ⟨hcfg_all, ?_, ?_, hframe_all, hentry_all⟩
      · rw [ihres]
        simp [List.filter_cons, hbeh, ServerBehavior.isOk]
      · rw [hbeh] at ihfail
        rw [List.filter_cons]
        simp [hbeh, show (ServerBehavior.handshakeError msg).isOk = false from rfl, ihfail]
    | listToolsError msg =>
      have hres2 : (connectServer cl n (behs n)).2 = Except.error msg := by
        rw [hres, hbeh]
      simp only [hunf, hres2]
      refine ⟨hcfg_all, ?_, ?_, hframe_all, hentry_all⟩
      · rw [ihres]
        simp [List.filter_cons, hbeh, ServerBehavior.isOk]
      · rw [hbeh] at ihfail
        rw [List.filter_cons]
        simp [hbeh, show (ServerBehavior.listToolsError msg).isOk = false from rfl, ihfail]

/-- A sample discovered tool for the C5 scenario. -/
def toolAlpha : MCPTool := { name := "read_file", description := "Read a file", inputSchema := "s" }

/-- A second sample discovered tool for the C5 scenario. -/
def toolGamma : MCPTool := { name := "fetch", description := "Fetch a URL", inputSchema := "s" }

/-- Client with three configured servers and no connections yet. -/
def clientC5 : MCPClient :=
  { requestId := 0, connections := [], configServers := ["alpha", "beta", "gamma"] }

/-- Behavior oracle: `beta`'s `initialize` request is rejected; the other
two servers connect fine. -/
def behsC5 : String → ServerBehavior := fun n =>
  if n = "alpha" then .ok [toolAlpha]
  else if n = "beta" then .handshakeError "MCP error: handshake rejected"
  else .ok [toolGamma]

/-- C5 counterexample.  With three configured servers of which `beta`
fails its handshake, `connectAll` does return the other two servers'
capability lists and reports exactly one failure — but `beta`'s
partially-established connection is NOT torn down: its entry is still in
the connection map (not ready), contradicting the claim's teardown
conjunct. -/
theorem handshake_failure_connection_not_torn_down :
    (connectAll clientC5 behsC5).2.1 =
      [("alpha", [toolAlpha]), ("gamma", [toolGamma])] ∧
    (connectAll clientC5 behsC5).2.2 =
      [("beta", "MCP error: handshake rejected")] ∧
    alookup (connectAll clientC5 behsC5).1.connections "beta" = some freshConnection ∧
    freshConnection.ready = false := by
  refine ⟨?_, ?_, ?_, rfl⟩ <;> decide

/-- C5 amended.  `connectAll` attempts every configured server; each
failure is reported per-server and does not prevent the remaining
servers from being connected and their capability lists returned
(partial success).  However, only a spawn failure removes the
connection entry; a failure during the handshake or the capability
listing leaves the partially-established connection in the map, not
ready — it is not torn down. -/
theorem connectAll_best_effort_amended :
    ∀ (cl : MCPClient) (behs : String → ServerBehavior),
      (∀ n ∈ cl.configServers, alookup cl.connections n = none) →
      cl.configServers.Nodup →
      (connectAll cl behs).2.1 =
        (cl.configServers.filter (fun n => (behs n).isOk)).map
          (fun n => (n, (behs n).toolsOf)) ∧
      (connectAll cl behs).2.2.map Prod.fst =
        cl.configServers.filter (fun n => ¬ (behs n).isOk) ∧
      (∀ n ∈ cl.configServers,
        connEntrySpec (behs n) (alookup (connectAll cl behs).1.connections n)) := by
  intro cl behs hnone hnd
  have h := connectList_spec behs cl.configServers cl (fun n hn => hn) hnone hnd
  exact ⟨h.2.1, h.2.2.1, h.2.2.2.2⟩

theorem connectAll_best_effort_amended_witness :
    (connectAll clientC5 behsC5).2.1 =
      (clientC5.configServers.filter (fun n => (behsC5 n).isOk)).map
        (fun n => (n, (behsC5 n).toolsOf)) ∧
    (connectAll clientC5 behsC5).2.2.map Prod.fst =
      clientC5.configServers.filter (fun n => ¬ (behsC5 n).isOk) ∧
    (∀ n ∈ clientC5.configServers,
      connEntrySpec (behsC5 n) (alookup (connectAll clientC5 behsC5).1.connections n)) :=
  connectAll_best_effort_amended clientC5 behsC5 (by decide) (by decide)

/-- Client with one connection that is present but not ready
(mid-handshake state: `connectServer` stores the connection in the map
with `ready = false` before the handshake completes). -/
def clientC6 : MCPClient :=
  { requestId := 0, connections := [("alpha", freshConnection)], configServers := ["alpha"] }

/-- C6 counterexample.  Invoking a tool on a server whose connection
exists but is not ready (`ready = false`, still mid-handshake) does NOT
fail: `callTool`/`sendRequest` succeeds, writes the request to the
subprocess stdin, and registers a pending entry — contradicting the
claim that every not-ready server fails immediately with no request
sent. -/
theorem not_ready_connection_still_receives_request :
    freshConnection.ready = false ∧
    callTool clientC6 "alpha" "echo" 0 =
      .ok ({ requestId := 1,
             connections :=
               [("alpha",
                 { ready := false, tools := [], pendingRequests := [(1, ⟨60000⟩)],
                   buffer := [] })],
             configServers := ["alpha"] },
           1, ⟨1, "tools/call"⟩) :=
  ⟨rfl, rfl⟩

/-- C6 amended.  `sendRequest` (hence `callTool`) fails immediately —
without a request being written — exactly when the connection map has
no entry for the server; when an entry exists, ready or not, the
request is sent and registered as pending. -/
theorem sendRequest_fails_iff_connection_absent :
    ∀ (cl : MCPClient) (s m : String) (now : Nat),
      (alookup cl.connections s = none →
        sendRequest cl s m now =
          .error ("MCP server \"" ++ s ++ "\" is not connected")) ∧
      (∀ conn, alookup cl.connections s = some conn →
        ∃ cl', sendRequest cl s m now =
            .ok (cl', cl.requestId + 1, ⟨cl.requestId + 1, m⟩) ∧
          ∃ conn', alookup cl'.connections s = some conn' ∧
            alookup conn'.pendingRequests (cl.requestId + 1) =
              some ⟨now + REQUEST_TIMEOUT_MS⟩) := by
  intro cl s m now
  constructor
  · intro hnone
    unfold sendRequest
    rw [hnone]
  · intro conn hsome
    unfold sendRequest
    rw [hsome]
    refine ⟨_, rfl, _, alookup_mapSet_self _ _ _, ?_⟩
    exact alookup_mapSet_self conn.pendingRequests (cl.requestId + 1)
      ⟨now + REQUEST_TIMEOUT_MS⟩

theorem sendRequest_fails_iff_connection_absent_witness :
    sendRequest clientC6 "missing" "tools/call" 0 =
      .error ("MCP server \"" ++ "missing" ++ "\" is not connected") ∧
    ∃ cl', sendRequest clientC6 "alpha" "tools/call" 0 =
        .ok (cl', clientC6.requestId + 1, ⟨clientC6.requestId + 1, "tools/call"⟩) ∧
      ∃ conn', alookup cl'.connections "alpha" = some conn' ∧
        alookup conn'.pendingRequests (clientC6.requestId + 1) =
          some ⟨0 + REQUEST_TIMEOUT_MS⟩ :=
  ⟨(sendRequest_fails_iff_connection_absent clientC6 "missing" "tools/call" 0).1 (by decide),
   (sendRequest_fails_iff_connection_absent clientC6 "alpha" "tools/call" 0).2
     freshConnection (by decide)⟩

/-- Trivial argument parser for concrete chat runs (every argument
string parses). -/
def parseArgsU : String → Except String Unit := fun _ => .ok ()

/-- Trivial tool executor for concrete chat runs. -/
def execU : Unit → String → Unit → Unit × Except String String :=
  fun w _ _ => (w, .ok "ok")

/-- Backend that always returns the plain answer `"hi"` and never
requests a tool call. -/
def backendPlainHi : Backend := fun _ => .ok { content := some "hi", tool_calls := [] }

/-- A concrete requested tool invocation (`\x7b\x7d` is the empty JSON
object `{}` as the argument string). -/
def toolCallEcho : ToolCall := { id := "call_1", name := "echo", arguments := "\x7b\x7d" }

/-- Backend that requests a tool call on every iteration and never
returns a plain answer. -/
def backendToolsEver : Backend :=
  fun _ => .ok { content := none, tool_calls := [toolCallEcho] }

/-- C7 counterexample.  With `maxIterations = 1` and a backend that
returns a plain answer (no tool calls ever requested), the answer is
produced within the budget and the assistant turn is appended — yet
`chat` returns the fixed max-iterations message instead of the text,
because the post-loop check overwrites the final response whenever
`iterations >= maxIterations`. -/
theorem final_iteration_plain_answer_overwritten :
    (∀ ms, backendPlainHi ms = .ok { content := some "hi", tool_calls := [] }) ∧
    (chatCore backendPlainHi parseArgsU execU 1 [] ()).2.1 =
      [{ role := .assistant, content := "hi" }] ∧
    (chatCore backendPlainHi parseArgsU execU 1 [] ()).2.2.1 = maxIterationsMsg ∧
    maxIterationsMsg ≠ "hi" :=
  ⟨fun _ => rfl, rfl, rfl, by decide⟩

/-- C7 amended.  (1) A completion response with no tool invocations
always ends the loop at once: the assistant turn with the returned text
is appended and the loop's response is that text.  (2) A backend that
requests tool invocations on every call drives the loop through exactly
`maxIterations` iterations and `chat` returns the fixed max-iterations
message.  (3) The returned final answer is the loop's text only when
the loop ended before exhausting `maxIterations`; whenever all
`maxIterations` iterations ran — even if the final iteration produced a
plain answer (still appended to the conversation) — the max-iterations
message is returned instead. -/
theorem chat_final_answer_amended :
    (∀ {α σ : Type} (backend : Backend) (parseArgs : String → Except String α)
       (exec : σ → String → α → σ × Except String String)
       (fuel iterations : Nat) (msgs : List Message) (w : σ) (resp : ChatResponse),
      backend msgs = .ok resp → resp.tool_calls = [] →
      reactLoopAux backend parseArgs exec (fuel + 1) iterations msgs w =
        (iterations + 1,
         msgs ++ [{ role := .assistant, content := resp.content.getD "" }],
         resp.content.getD "", w)) ∧
    (∀ {α σ : Type} (backend : Backend) (parseArgs : String → Except String α)
       (exec : σ → String → α → σ × Except String String)
       (maxIterations : Nat) (msgs : List Message) (w : σ),
      (∀ ms, ∃ r, backend ms = .ok r ∧ r.tool_calls ≠ []) →
      (chatCore backend parseArgs exec maxIterations msgs w).1 = maxIterations ∧
      (chatCore backend parseArgs exec maxIterations msgs w).2.2.1 = maxIterationsMsg) ∧
    (∀ {α σ : Type} (backend : Backend) (parseArgs : String → Except String α)
       (exec : σ → String → α → σ × Except String String)
       (maxIterations : Nat) (msgs : List Message) (w : σ),
      ((reactLoopAux backend parseArgs exec maxIterations 0 msgs w).1 < maxIterations →
        (chatCore backend parseArgs exec maxIterations msgs w).2.2.1 =
          (reactLoopAux backend parseArgs exec maxIterations 0 msgs w).2.2.1) ∧
      (maxIterations ≤ (reactLoopAux backend parseArgs exec maxIterations 0 msgs w).1 →
        (chatCore backend parseArgs exec maxIterations msgs w).2.2.1 =
          maxIterationsMsg)) := by
  refine ⟨?_, ?_, ?_⟩
  · intro α σ backend parseArgs exec fuel iterations msgs w resp hok hempty
    rw [reactLoopAux, hok]
    simp [hempty]
  · intro α σ backend parseArgs exec maxIterations msgs w htools
    have key : ∀ (fuel iterations : Nat) (ms : List Message) (w' : σ),
        (reactLoopAux backend parseArgs exec fuel iterations ms w').1 = iterations + fuel ∧
        (reactLoopAux backend parseArgs exec fuel iterations ms w').2.2.1 = "" := by
      intro fuel
      induction fuel with
      | zero => intro iterations ms w'; exact ⟨rfl, rfl⟩
      | succ f ihf =>
        intro iterations ms w'
        obtain ⟨r, hok, hne⟩ := htools ms
        rw [reactLoopAux, hok]
        simp only [hne, if_neg, if_false]
        have := ihf (iterations + 1)
          (handleToolCalls parseArgs exec ms r.tool_calls r.content w').1
          (handleToolCalls parseArgs exec ms r.tool_calls r.content w').2
        refine ⟨?_, this.2⟩
        rw [this.1]
        omega
    have h1 := key maxIterations 0 msgs w
    constructor
    · unfold chatCore
      simp only []
      rw [h1.1]
      omega
    · unfold chatCore
      simp only []
      rw [if_pos]
      rw [h1.1]
      omega
  · intro α σ backend parseArgs exec maxIterations msgs w
    constructor
    · intro hlt
      unfold chatCore
      simp only []
      rw [if_neg (by omega)]
    · intro hge
      unfold chatCore
      simp only []
      rw [if_pos hge]

theorem chat_final_answer_amended_witness :
    reactLoopAux backendPlainHi parseArgsU execU (1 + 1) 0 [] () =
      (0 + 1, [] ++ [{ role := .assistant, content := (some "hi" : Option String).getD "" }],
       (some "hi" : Option String).getD "", ()) ∧
    ((chatCore backendToolsEver parseArgsU execU 3 [] ()).1 = 3 ∧
     (chatCore backendToolsEver parseArgsU execU 3 [] ()).2.2.1 = maxIterationsMsg) ∧
    (1 ≤ (reactLoopAux backendPlainHi parseArgsU execU 1 0 [] ()).1 →
      (chatCore backendPlainHi parseArgsU execU 1 [] ()).2.2.1 = maxIterationsMsg) :=
  ⟨chat_final_answer_amended.1 backendPlainHi parseArgsU execU 1 0 [] ()
     { content := some "hi", tool_calls := [] } rfl rfl,
   chat_final_answer_amended.2.1 backendToolsEver parseArgsU execU 3 [] ()
     (fun ms => ⟨{ content := none, tool_calls := [toolCallEcho] }, rfl, by decide⟩),
   (chat_final_answer_amended.2.2 backendPlainHi parseArgsU execU 1 [] ()).2⟩

/-- Specification rendering of the claim for C8: one tool-result turn
per requested invocation, produced sequentially in receipt order, each
referencing its invocation's id, with the world threaded through the
executions in that order.  Compared against the source's fold in
`handleToolCalls`. -/
def toolResultTurnsSpec {α σ : Type} (parseArgs : String → Except String α)
    (exec : σ → String → α → σ × Except String String) :
    σ → List ToolCall → List Message × σ
  | w, [] => ([], w)
  | w, tc :: rest =>
    ({ role := .tool, content := (execOne parseArgs exec w tc).2,
       tool_call_id := some tc.id } ::
       (toolResultTurnsSpec parseArgs exec (execOne parseArgs exec w tc).1 rest).1,
     (toolResultTurnsSpec parseArgs exec (execOne parseArgs exec w tc).1 rest).2)

theorem handleToolCalls_foldl_spec {α σ : Type} (parseArgs : String → Except String α)
    (exec : σ → String → α → σ × Except String String) :
    ∀ (toolCalls : List ToolCall) (start : List Message) (w : σ),
      toolCalls.foldl
        (fun acc tc =>
          (acc.1 ++ [{ role := .tool, content := (execOne parseArgs exec acc.2 tc).2,
                       tool_call_id := some tc.id }],
           (execOne parseArgs exec acc.2 tc).1))
        (start, w) =
      (start ++ (toolResultTurnsSpec parseArgs exec w toolCalls).1,
       (toolResultTurnsSpec parseArgs exec w toolCalls).2) := by
  intro toolCalls
  induction toolCalls with
  | nil => intro start w; simp [toolResultTurnsSpec]
  | cons tc rest ih =>
    intro start w
    rw [List.foldl_cons]
    rw [show ((start, w).1 ++
          [{ role := Role.tool, content := (execOne parseArgs exec (start, w).2 tc).2,
             tool_calls := none, tool_call_id := some tc.id }],
        (execOne parseArgs exec (start, w).2 tc).1) =
      (start ++
          [{ role := Role.tool, content := (execOne parseArgs exec w tc).2,
             tool_calls := none, tool_call_id := some tc.id }],
        (execOne parseArgs exec w tc).1) from rfl]
    rw [ih]
    rw [toolResultTurnsSpec]
    simp

/-- C8.  The tool invocations of one completion response are executed
strictly sequentially in receipt order (the external world is threaded
through `execOne` in list order), the assistant turn carrying the
requests is appended first, then exactly one tool-result turn per
invocation, in order, each referencing its invocation's id; an
argument-parse failure or an executor failure produces the structured
failure payload `JSON.stringify({success:false,error})` in that turn
instead of an escaping exception. -/
theorem tool_calls_sequential_one_result_each :
    (∀ {α σ : Type} (parseArgs : String → Except String α)
       (exec : σ → String → α → σ × Except String String)
       (msgs : List Message) (toolCalls : List ToolCall)
       (content : Option String) (w : σ),
      handleToolCalls parseArgs exec msgs toolCalls content w =
        (msgs ++ { role := .assistant, content := content.getD "",
                   tool_calls := some toolCalls } ::
             (toolResultTurnsSpec parseArgs exec w toolCalls).1,
         (toolResultTurnsSpec parseArgs exec w toolCalls).2)) ∧
    (∀ {α σ : Type} (parseArgs : String → Except String α)
       (exec : σ → String → α → σ × Except String String)
       (w : σ) (toolCalls : List ToolCall),
      (toolResultTurnsSpec parseArgs exec w toolCalls).1.map
          (fun m => m.tool_call_id) =
        toolCalls.map (fun tc => some tc.id) ∧
      (toolResultTurnsSpec parseArgs exec w toolCalls).1.map (fun m => m.role) =
        toolCalls.map (fun _ => Role.tool)) ∧
    (∀ {α σ : Type} (parseArgs : String → Except String α)
       (exec : σ → String → α → σ × Except String String)
       (w : σ) (tc : ToolCall) (e : String),
      parseArgs tc.arguments = .error e →
      execOne parseArgs exec w tc = (w, failurePayload e)) ∧
    (∀ {α σ : Type} (parseArgs : String → Except String α)
       (exec : σ → String → α → σ × Except String String)
       (w : σ) (tc : ToolCall) (args : α) (w' : σ) (e : String),
      parseArgs tc.arguments = .ok args → exec w tc.name args = (w', .error e) →
      execOne parseArgs exec w tc = (w', failurePayload e)) := by
  refine ⟨?_, ?_, ?_, ?_⟩
  · intro α σ parseArgs exec msgs toolCalls content w
    unfold handleToolCalls
    rw [handleToolCalls_foldl_spec]
    simp
  · intro α σ parseArgs exec w toolCalls
    induction toolCalls generalizing w with
    | nil => exact ⟨rfl, rfl⟩
    | cons tc rest ih =>
      constructor
      · rw [toolResultTurnsSpec]
        simp only [List.map_cons]
        rw [(ih (execOne parseArgs exec w tc).1).1]
      · rw [toolResultTurnsSpec]
        simp only [List.map_cons]
        rw [(ih (execOne parseArgs exec w tc).1).2]
  · intro α σ parseArgs exec w tc e hp
    unfold execOne
    simp only [hp]
  · intro α σ parseArgs exec w tc args w' e hp he
    unfold execOne
    simp only [hp]
    simp only [he]

/-- A second concrete invocation whose argument string does not parse. -/
def toolCallBad : ToolCall := { id := "call_2", name := "mystery", arguments := "oops" }

/-- Argument parser failing exactly on `toolCallBad`'s argument string. -/
def parseArgsC8 : String → Except String Unit :=
  fun s => if s = "oops" then .error "Unexpected token" else .ok ()

/-- Executor counting invocations in its world and failing on the
unknown tool name. -/
def execC8 : Nat → String → Unit → Nat × Except String String :=
  fun w n _ =>
    (w + 1, if n = "mystery" then .error "Unknown tool: mystery" else .ok "echoed")

/-- Invocation with parsable arguments but a failing executor. -/
def toolCallFail : ToolCall := { id := "call_3", name := "mystery", arguments := "\x7b\x7d" }

theorem tool_calls_sequential_one_result_each_witness :
    handleToolCalls parseArgsC8 execC8 [] [toolCallEcho, toolCallBad] (some "doing") 3 =
      ([] ++ { role := .assistant, content := (some "doing" : Option String).getD "",
               tool_calls := some [toolCallEcho, toolCallBad] } ::
           (toolResultTurnsSpec parseArgsC8 execC8 3 [toolCallEcho, toolCallBad]).1,
       (toolResultTurnsSpec parseArgsC8 execC8 3 [toolCallEcho, toolCallBad]).2) ∧
    (toolResultTurnsSpec parseArgsC8 execC8 3 [toolCallEcho, toolCallBad]).1.map
        (fun m => m.tool_call_id) =
      [toolCallEcho, toolCallBad].map (fun tc => some tc.id) ∧
    execOne parseArgsC8 execC8 7 toolCallBad = (7, failurePayload "Unexpected token") ∧
    execOne parseArgsC8 execC8 7 toolCallFail = (8, failurePayload "Unknown tool: mystery") :=
  ⟨tool_calls_sequential_one_result_each.1 parseArgsC8 execC8 []
     [toolCallEcho, toolCallBad] (some "doing") 3,
   (tool_calls_sequential_one_result_each.2.1 parseArgsC8 execC8 3
     [toolCallEcho, toolCallBad]).1,
   tool_calls_sequential_one_result_each.2.2.1 parseArgsC8 execC8 7 toolCallBad
     "Unexpected token" rfl,
   tool_calls_sequential_one_result_each.2.2.2 parseArgsC8 execC8 7 toolCallFail ()
     8 "Unknown tool: mystery" rfl rfl⟩

/-- Compression config with a tiny ceiling so small conversations
trigger compaction (the ceiling is configurable). -/
def cfgC9 : CompressConfig := { maxTokens := 1, targetTokens := 1, keepRecentMessages := 4 }

/-- Model of `JSON.stringify` length stub (no message in the scenarios carries
tool calls). -/
def lenZero : List ToolCall → Nat := fun _ => 0

/-- Backend returning the summary text `"S"`. -/
def backendS : Backend := fun _ => .ok { content := some "S", tool_calls := [] }

/-- A conversation holding TWO system turns (the second as left by an
earlier compaction) and five user turns. -/
def msgsC9 : List Message :=
  [{ role := .system, content := "primary system prompt" },
   { role := .system, content := "old summary" },
   { role := .user, content := "u1" },
   { role := .user, content := "u2" },
   { role := .user, content := "u3" },
   { role := .user, content := "u4" },
   { role := .user, content := "u5" }]

/-- C9 counterexample.  On a state with two system turns, `compress`
keeps only the FIRST system turn (`messages.find`): the second system
turn is silently discarded — it is neither kept nor summarized — so the
output is not "the state's system turn(s)" followed by the summary and
the recent turns. -/
theorem second_system_turn_dropped :
    ({ role := .system, content := "old summary" } : Message) ∈ msgsC9 ∧
    compress cfgC9 lenZero backendS msgsC9 =
      .ok [{ role := .system, content := "primary system prompt" },
           { role := .system, content := "[对话历史摘要]\nS" },
           { role := .user, content := "u2" },
           { role := .user, content := "u3" },
           { role := .user, content := "u4" },
           { role := .user, content := "u5" }] ∧
    ({ role := .system, content := "old summary" } : Message) ∉
      [({ role := .system, content := "primary system prompt" } : Message),
       { role := .system, content := "[对话历史摘要]\nS" },
       { role := .user, content := "u2" },
       { role := .user, content := "u3" },
       { role := .user, content := "u4" },
       { role := .user, content := "u5" }] :=
  ⟨by decide, rfl, by decide⟩

theorem take_ne_nil_of_pos {β : Type} (n : Nat) (l : List β) (hn : 0 < n) (hl : l ≠ []) :
    l.take n ≠ [] := by
  cases l with
  | nil => exact absurd rfl hl
  | cons a as =>
    cases n with
    | zero => omega
    | succ m => simp [List.take]

/-- C9 amended.  `compress` returns the state unchanged when the token
estimate is at or below the ceiling, and also when there are no
non-system turns older than the `keepRecentMessages` most recent ones;
otherwise it returns the FIRST system turn only (any further system
turns are discarded), then one synthetic system turn holding the
summary, then the K most recent non-system turns. -/
theorem compress_shape_amended :
    ∀ (cfg : CompressConfig) (len : List ToolCall → Nat) (backend : Backend)
      (msgs : List Message),
      (estimateTokens len msgs ≤ cfg.maxTokens →
        compress cfg len backend msgs = .ok msgs) ∧
      (jsSliceDropLast cfg.keepRecentMessages
          (msgs.filter (fun m => ¬ m.role = .system)) = [] →
        compress cfg len backend msgs = .ok msgs) ∧
      (∀ (s : String) (firstSys : Message),
        needsCompression cfg len msgs = true →
        0 < cfg.keepRecentMessages →
        cfg.keepRecentMessages < (msgs.filter (fun m => ¬ m.role = .system)).length →
        msgs.find? (fun m => m.role = .system) = some firstSys →
        generateSummary backend
            ((msgs.filter (fun m => ¬ m.role = .system)).take
              ((msgs.filter (fun m => ¬ m.role = .system)).length -
                cfg.keepRecentMessages)) = .ok s →
        compress cfg len backend msgs =
          .ok (firstSys :: summaryTurn s ::
            (msgs.filter (fun m => ¬ m.role = .system)).drop
              ((msgs.filter (fun m => ¬ m.role = .system)).length -
                cfg.keepRecentMessages))) := by
  intro cfg len backend msgs
  refine ⟨?_, ?_, ?_⟩
  · intro hle
    have hnc : ¬ needsCompression cfg len msgs = true := by
      simp [needsCompression]
      omega
    unfold compress
    rw [if_pos hnc]
  · intro hold
    by_cases hnc : needsCompression cfg len msgs = true
    · unfold compress
      rw [if_neg (not_not_intro hnc), if_pos hold]
    · unfold compress
      rw [if_pos hnc]
  · intro s firstSys hnc hkpos hklt hfind hsum
    have hkne : cfg.keepRecentMessages ≠ 0 := by omega
    have hjsd : jsSliceDropLast cfg.keepRecentMessages
        (msgs.filter (fun m => ¬ m.role = .system)) =
        (msgs.filter (fun m => ¬ m.role = .system)).take
          ((msgs.filter (fun m => ¬ m.role = .system)).length -
            cfg.keepRecentMessages) := by
      unfold jsSliceDropLast
      rw [if_neg hkne]
    have hjst : jsSliceLast cfg.keepRecentMessages
        (msgs.filter (fun m => ¬ m.role = .system)) =
        (msgs.filter (fun m => ¬ m.role = .system)).drop
          ((msgs.filter (fun m => ¬ m.role = .system)).length -
            cfg.keepRecentMessages) := by
      unfold jsSliceLast
      rw [if_neg hkne]
    have hold : jsSliceDropLast cfg.keepRecentMessages
        (msgs.filter (fun m => ¬ m.role = .system)) ≠ [] := by
      rw [hjsd]
      refine take_ne_nil_of_pos _ _ (by omega) ?_
      intro hnil
      rw [hnil] at hklt
      simp at hklt
    unfold compress
    rw [if_neg (not_not_intro hnc), if_neg hold, hjsd, hsum]
    simp only [hfind, hjst]
    simp

theorem compress_shape_amended_witness :
    (estimateTokens lenZero ([] : List Message) ≤ cfgC9.maxTokens →
      compress cfgC9 lenZero backendS [] = .ok []) ∧
    (estimateTokens lenZero ([] : List Message) ≤ cfgC9.maxTokens) ∧
    compress cfgC9 lenZero backendS msgsC9 =
      .ok ({ role := .system, content := "primary system prompt" } ::
        summaryTurn "S" ::
        (msgsC9.filter (fun m => ¬ m.role = .system)).drop
          ((msgsC9.filter (fun m => ¬ m.role = .system)).length -
            cfgC9.keepRecentMessages)) :=
  ⟨(compress_shape_amended cfgC9 lenZero backendS []).1,
   by decide,
   (compress_shape_amended cfgC9 lenZero backendS msgsC9).2.2 "S"
     { role := .system, content := "primary system prompt" }
     (by decide) (by decide) (by decide) (by decide) rfl⟩

/-- Backend whose every call throws (models a network/API failure). -/
def backendFailNet : Backend := fun _ => .error "network error"

/-- C10 counterexample.  When the completion backend throws while
generating the compaction summary, `compress` does NOT complete with a
placeholder state: the error propagates out of `compress`, and out of
the `chat` call that triggered compaction (the compression step sits
outside the loop's `try/catch`) — contradicting the claim that no
exception escapes and some state is always produced. -/
theorem summary_backend_error_propagates :
    compress cfgC9 lenZero backendFailNet msgsC9 = .error "network error" ∧
    agentChat backendFailNet parseArgsU execU 20 cfgC9 lenZero msgsC9 "u6" () =
      .error "network error" :=
  ⟨rfl, rfl⟩

/-- C10 amended.  The degraded-placeholder path exists only for a
backend call that *succeeds* with empty or absent content: then the
summary is the fixed placeholder text and compaction completes.  A
backend call that *throws* propagates its error out of `compress` and
out of `chat` (the compaction `await` is outside the loop's
`try/catch`), aborting the chat invocation. -/
theorem summary_failure_amended :
    (∀ (backend : Backend) (msgs : List Message),
      (∀ ms, ∃ r, backend ms = .ok r ∧ (r.content = none ∨ r.content = some "")) →
      generateSummary backend msgs = .ok "无法生成摘要") ∧
    (∀ (cfg : CompressConfig) (len : List ToolCall → Nat) (backend : Backend)
       (msgs : List Message) (e : String),
      (∀ ms, backend ms = .error e) →
      needsCompression cfg len msgs = true →
      jsSliceDropLast cfg.keepRecentMessages
          (msgs.filter (fun m => ¬ m.role = .system)) ≠ [] →
      compress cfg len backend msgs = .error e) ∧
    (∀ {α σ : Type} (backend : Backend) (parseArgs : String → Except String α)
       (exec : σ → String → α → σ × Except String String)
       (maxIterations : Nat) (cfg : CompressConfig) (len : List ToolCall → Nat)
       (msgs : List Message) (userMessage : String) (w : σ) (e : String),
      (∀ ms, backend ms = .error e) →
      needsCompression cfg len
          (msgs ++ [({ role := .user, content := userMessage } : Message)]) = true →
      jsSliceDropLast cfg.keepRecentMessages
          ((msgs ++ [({ role := .user, content := userMessage } : Message)]).filter
            (fun m => ¬ m.role = .system)) ≠ [] →
      agentChat backend parseArgs exec maxIterations cfg len msgs userMessage w =
        .error e) := by
  have hgen : ∀ (backend : Backend) (e : String) (msgs : List Message),
      (∀ ms, backend ms = .error e) →
      generateSummary backend msgs = .error e := by
    intro backend e msgs h
    unfold generateSummary
    rw [h _]
  refine ⟨?_, ?_, ?_⟩
  · intro backend msgs h
    obtain ⟨r, hok, hc⟩ := h
      [{ role := .system, content := summaryInstruction },
       { role := .user, content := "请总结以下对话：\n\n" ++ conversationText msgs }]
    unfold generateSummary
    simp only [hok]
    rcases hc with hc | hc <;> rw [hc] <;> rfl
  · intro cfg len backend msgs e h hnc hold
    unfold compress
    rw [if_neg (not_not_intro hnc), if_neg hold, hgen backend e _ h]
  · intro α σ backend parseArgs exec maxIterations cfg len msgs userMessage w e h hnc hold
    have hcomp : compress cfg len backend
        (msgs ++ [{ role := .user, content := userMessage }]) = .error e := by
      unfold compress
      rw [if_neg (not_not_intro hnc), if_neg hold, hgen backend e _ h]
    unfold agentChat
    rw [if_pos hnc, hcomp]

/-- Backend that answers but with empty content. -/
def backendEmpty : Backend := fun _ => .ok { content := some "", tool_calls := [] }

theorem summary_failure_amended_witness :
    generateSummary backendEmpty [{ role := .user, content := "u1" }] =
      .ok "无法生成摘要" ∧
    compress cfgC9 lenZero backendFailNet msgsC9 = .error "network error" ∧
    agentChat backendFailNet parseArgsU execU 20 cfgC9 lenZero msgsC9 "u6" () =
      .error "network error" :=
  ⟨summary_failure_amended.1 backendEmpty [{ role := .user, content := "u1" }]
     (fun ms => ⟨{ content := some "", tool_calls := [] }, rfl, Or.inr rfl⟩),
   summary_failure_amended.2.1 cfgC9 lenZero backendFailNet msgsC9 "network error"
     (fun ms => rfl) (by decide) (by decide),
   summary_failure_amended.2.2 backendFailNet parseArgsU execU 20 cfgC9 lenZero
     msgsC9 "u6" () "network error" (fun ms => rfl) (by decide) (by decide)⟩

end MyAgent
